import Mathlib

/-!
Verification of the kpea cpio library against its specification.

The development is a shallow embedding of the Rust sources
(`src/io.rs`, `src/crc.rs`, `src/metadata.rs`, `src/builder.rs`,
`src/archive.rs`).  Byte streams are `List Nat` (each element one byte),
readers return the parsed value together with the unconsumed remainder of
the stream, and fallible operations return `Except IoError`.
-/

deriving instance DecidableEq for Except

namespace Kpea

/-- Error kinds the Rust code distinguishes: `ErrorKind::InvalidData`, the
`UnexpectedEof` produced by `read_exact`, and the `Error::other` used for an
unrecognized magic. -/
inductive IoError where
  | invalidData
  | unexpectedEof
  | otherErr
deriving DecidableEq, Repr

/-! Constants from `src/constants.rs`. -/

def NEWC_HEADER_LEN : Nat := 6 + 13 * 8
def NEWC_ALIGN : Nat := 4
def BIN_ALIGN : Nat := 2
/-- Byte content of the C string literal TRAILER (without the NUL). -/
def TRAILER : List Nat := [84, 82, 65, 73, 76, 69, 82, 33, 33, 33]
def MAGIC_LEN : Nat := 6
def ODC_MAGIC : List Nat := [48, 55, 48, 55, 48, 55]
def NEWC_MAGIC : List Nat := [48, 55, 48, 55, 48, 49]
def CRC_MAGIC : List Nat := [48, 55, 48, 55, 48, 50]
def BIN_MAGIC_LEN : Nat := 2
/-- Bytes of the u16 value 0o070707 in little-endian order. -/
def BIN_LE_MAGIC : List Nat := [0xc7, 0x71]
/-- Bytes of the u16 value 0o070707 in big-endian order. -/
def BIN_BE_MAGIC : List Nat := [0x71, 0xc7]
def MAX_6 : Nat := 0o777777
def MAX_11 : Nat := 0o77777777777
def MAX_8 : Nat := 0xffffffff
def FILE_MODE_MASK : Nat := 0o7777
def FILE_WRITE_BIT : Nat := 0o2
def FILE_TYPE_MASK : Nat := 0o170000

/-- Number of values of a `u16`. -/
def U16_BOUND : Nat := 2 ^ 16
/-- Number of values of a `u32`. -/
def U32_BOUND : Nat := 2 ^ 32
/-- Number of values of a `u64` (and of `usize` on the 64-bit targets the
crate is written for). -/
def U64_BOUND : Nat := 2 ^ 64

/-! Digit primitives shared by the octal and hexadecimal field codecs. -/

/-- ASCII code of digit `d`, as produced by the Rust format specifiers
`{:o}` and `{:x}` (lower-case letters for 10..15). -/
def asciiDigit (d : Nat) : Nat := if d < 10 then 48 + d else 87 + d

/-- Big-endian base-`b` digits of `v`, zero-padded to width `w`; the digit
sequence produced by `format!` with a zero-padded width specifier. -/
def padDigits (b : Nat) : Nat → Nat → List Nat
  | 0, _ => []
  | w + 1, v => padDigits b w (v / b) ++ [v % b]

/-- Byte string written for value `v` as `w` base-`b` digits. -/
def digitsToBytes (b w v : Nat) : List Nat := (padDigits b w v).map asciiDigit

/-- Rust `char::to_digit(base)` restricted to single bytes: ASCII `0-9`,
`a-z`, `A-Z` mapped to their values, anything else rejected.  A byte that
is ≥ 0x80 is never a digit, so inputs that fail the callers' UTF-8 check
are rejected here as well. -/
def digitOfByte (base b : Nat) : Option Nat :=
  let d? : Option Nat :=
    if 48 ≤ b ∧ b ≤ 57 then some (b - 48)
    else if 97 ≤ b ∧ b ≤ 122 then some (b - 87)
    else if 65 ≤ b ∧ b ≤ 90 then some (b - 55)
    else none
  match d? with
  | some d => if d < base then some d else none
  | none => none

/-- The digit loop of `from_str_radix`: digits are accumulated left to
right; a non-digit byte or an accumulator that would exceed `limit` (the
integer type's maximum value) aborts the parse. -/
def parseDigits (base limit : Nat) : List Nat → Nat → Option Nat
  | [], acc => some acc
  | b :: rest, acc =>
    match digitOfByte base b with
    | none => none
    | some d =>
      if acc * base + d ≤ limit then parseDigits base limit rest (acc * base + d)
      else none

/-- Rust `u32::from_str_radix` / `u64::from_str_radix` on a byte string:
an optional leading plus sign (byte 43) followed by at least one digit of
the base.  A minus sign is not stripped for unsigned types and therefore
fails in the digit loop. -/
def fromStrRadix (base limit : Nat) (s : List Nat) : Option Nat :=
  match s with
  | [] => none
  | b :: rest =>
    if b = 43 then
      match rest with
      | [] => none
      | _ :: _ => parseDigits base limit rest 0
    else parseDigits base limit s 0

/-! The field readers and writers of `src/io.rs`. -/

/-- Rust `read_exact` on a list-backed reader. -/
def readExact (n : Nat) (s : List Nat) : Except IoError (List Nat × List Nat) :=
  if n ≤ s.length then .ok (s.take n, s.drop n) else .error .unexpectedEof

def read_octal_6 (s : List Nat) : Except IoError (Nat × List Nat) := do
  let (buf, rest) ← readExact 6 s
  match fromStrRadix 8 (U32_BOUND - 1) buf with
  | none => .error .invalidData
  | some n => .ok (n, rest)

def write_octal_6 (v : Nat) : Except IoError (List Nat) :=
  if v > MAX_6 then .error .invalidData else .ok (digitsToBytes 8 6 v)

def read_octal_11 (s : List Nat) : Except IoError (Nat × List Nat) := do
  let (buf, rest) ← readExact 11 s
  match fromStrRadix 8 (U64_BOUND - 1) buf with
  | none => .error .invalidData
  | some n => .ok (n, rest)

def write_octal_11 (v : Nat) : Except IoError (List Nat) :=
  if v > MAX_11 then .error .invalidData else .ok (digitsToBytes 8 11 v)

def read_hex_8 (s : List Nat) : Except IoError (Nat × List Nat) := do
  let (buf, rest) ← readExact 8 s
  match fromStrRadix 16 (U32_BOUND - 1) buf with
  | none => .error .invalidData
  | some n => .ok (n, rest)

/-- Rust `write_hex_8` has no range check: it formats its `u32` argument
with `{:08x}`. -/
def write_hex_8 (v : Nat) : List Nat := digitsToBytes 16 8 v

def read_binary_u16_le (s : List Nat) : Except IoError (Nat × List Nat) := do
  let (b, rest) ← readExact 2 s
  .ok (b.getD 0 0 + 256 * b.getD 1 0, rest)

def write_binary_u16_le (v : Nat) : List Nat := [v % 256, v / 256 % 256]

def read_binary_u16_be (s : List Nat) : Except IoError (Nat × List Nat) := do
  let (b, rest) ← readExact 2 s
  .ok (256 * b.getD 0 0 + b.getD 1 0, rest)

def write_binary_u16_be (v : Nat) : List Nat := [v / 256 % 256, v % 256]

/-- The 32-bit value is stored as two 16-bit halves, most significant half
first, in the chosen endianness. -/
def read_binary_u32_le (s : List Nat) : Except IoError (Nat × List Nat) := do
  let (high, s) ← read_binary_u16_le s
  let (low, s) ← read_binary_u16_le s
  .ok ((high <<< 16) ||| low, s)

def write_binary_u32_le (v : Nat) : List Nat :=
  write_binary_u16_le (v >>> 16 % U16_BOUND) ++ write_binary_u16_le (v % U16_BOUND)

def read_binary_u32_be (s : List Nat) : Except IoError (Nat × List Nat) := do
  let (high, s) ← read_binary_u16_be s
  let (low, s) ← read_binary_u16_be s
  .ok ((high <<< 16) ||| low, s)

def write_binary_u32_be (v : Nat) : List Nat :=
  write_binary_u16_be (v >>> 16 % U16_BOUND) ++ write_binary_u16_be (v % U16_BOUND)

/-! Padding (`src/io.rs`). -/

def write_padding_newc (len : Nat) : List Nat :=
  if len % NEWC_ALIGN ≠ 0 then List.replicate (NEWC_ALIGN - len % NEWC_ALIGN) 0 else []

def read_padding (len : Nat) (s : List Nat) : Except IoError (List Nat) :=
  if len % NEWC_ALIGN ≠ 0 then do
    let (_, s) ← readExact (NEWC_ALIGN - len % NEWC_ALIGN) s
    .ok s
  else .ok s

def write_padding_bin (len : Nat) : List Nat :=
  if len % BIN_ALIGN ≠ 0 then [0] else []

def read_padding_bin (len : Nat) (s : List Nat) : Except IoError (List Nat) :=
  if len % BIN_ALIGN ≠ 0 then do
    let (_, s) ← readExact 1 s
    .ok s
  else .ok s

/-! Formats (`src/metadata.rs`). -/

inductive ByteOrder where
  | LittleEndian
  | BigEndian
deriving DecidableEq, Repr

inductive Format where
  | Bin (byteOrder : ByteOrder)
  | Odc
  | Newc
  | Crc
deriving DecidableEq, Repr

def read_path_padding (len : Nat) (format : Format) (s : List Nat) :
    Except IoError (List Nat) :=
  match format with
  | .Newc | .Crc => read_padding (NEWC_HEADER_LEN + len) s
  | .Bin _ => read_padding_bin len s
  | .Odc => .ok s

def write_path_padding (len : Nat) (format : Format) : List Nat :=
  match format with
  | .Newc | .Crc => write_padding_newc (NEWC_HEADER_LEN + len)
  | .Bin _ => write_padding_bin len
  | .Odc => []

def read_file_padding (len : Nat) (format : Format) (s : List Nat) :
    Except IoError (List Nat) :=
  match format with
  | .Newc | .Crc => read_padding len s
  | .Bin _ => read_padding_bin len s
  | .Odc => .ok s

def write_file_padding (file_size : Nat) (format : Format) : List Nat :=
  match format with
  | .Newc | .Crc => write_padding_newc file_size
  | .Bin _ => write_padding_bin file_size
  | .Odc => []

/-- Rust `write_path`: the path bytes, one NUL, then name padding. -/
def write_path (bytes : List Nat) (format : Format) : List Nat :=
  bytes ++ [0] ++ write_path_padding (bytes.length + 1) format

/-- Rust `read_path_buf`: read `len` bytes, require them to be a valid
C string (exactly one NUL, at the end), consume the name padding, and
return the path bytes without the NUL. -/
def read_path_buf (len : Nat) (format : Format) (s : List Nat) :
    Except IoError (List Nat × List Nat) := do
  let (buf, s) ← readExact len s
  if buf ≠ [] ∧ buf.getLast? = some 0 ∧ ¬ 0 ∈ buf.dropLast then
    let s ← read_path_padding len format s
    .ok (buf.dropLast, s)
  else .error .invalidData

/-! Device id packing.  `src/metadata.rs` calls `libc::major`,
`libc::minor` and `libc::makedev`; the crate's own `src/dev.rs` restates
the same musl formulas. -/

def major (dev : Nat) : Nat :=
  (dev >>> 32 &&& 0xfffff000) ||| (dev >>> 8 &&& 0x00000fff)

def minor (dev : Nat) : Nat :=
  (dev >>> 12 &&& 0xffffff00) ||| (dev &&& 0x000000ff)

def makedev (mj mn : Nat) : Nat :=
  ((mj &&& 0xfffff000) <<< 32) ||| ((mj &&& 0x00000fff) <<< 8) |||
    ((mn &&& 0xffffff00) <<< 12) ||| (mn &&& 0x000000ff)

/-! File types (`src/file_type.rs`). -/

inductive FileType where
  | Socket
  | Symlink
  | Regular
  | BlockDevice
  | Directory
  | CharDevice
  | Fifo
deriving DecidableEq, Repr

/-- Discriminant of the `#[repr(u8)]` enum (`FileType::Socket as u8` …). -/
def FileType.toNibble : FileType → Nat
  | .Socket => 0o14
  | .Symlink => 0o12
  | .Regular => 0o10
  | .BlockDevice => 0o6
  | .Directory => 0o4
  | .CharDevice => 0o2
  | .Fifo => 0o1

def mode_to_file_type (mode : Nat) : Nat := (mode &&& FILE_TYPE_MASK) >>> 12

/-- Rust `FileType::new`: map the file-type nibble of a mode to the enum,
rejecting the nine unassigned nibble values. -/
def FileType.new (mode : Nat) : Except IoError FileType :=
  let n := mode_to_file_type mode
  if n = 0o14 then .ok .Socket
  else if n = 0o12 then .ok .Symlink
  else if n = 0o10 then .ok .Regular
  else if n = 0o6 then .ok .BlockDevice
  else if n = 0o4 then .ok .Directory
  else if n = 0o2 then .ok .CharDevice
  else if n = 0o1 then .ok .Fifo
  else .error .invalidData

/-! Metadata (`src/metadata.rs`). -/

structure Metadata where
  dev : Nat
  ino : Nat
  mode : Nat
  uid : Nat
  gid : Nat
  nlink : Nat
  rdev : Nat
  mtime : Nat
  name_len : Nat
  file_size : Nat
  check : Nat
deriving DecidableEq, Repr

/-- Field values representable in the Rust struct's integer types: `u64`
for `dev`, `ino`, `rdev`, `mtime` and `file_size`, `u32` for the rest. -/
def Metadata.WF (m : Metadata) : Prop :=
  m.dev < U64_BOUND ∧ m.ino < U64_BOUND ∧ m.mode < U32_BOUND ∧ m.uid < U32_BOUND ∧
    m.gid < U32_BOUND ∧ m.nlink < U32_BOUND ∧ m.rdev < U64_BOUND ∧ m.mtime < U64_BOUND ∧
    m.name_len < U32_BOUND ∧ m.file_size < U64_BOUND ∧ m.check < U32_BOUND

instance (m : Metadata) : Decidable m.WF := by
  unfold Metadata.WF; infer_instance

def Metadata.file_type (m : Metadata) : Except IoError FileType := FileType.new m.mode

def Metadata.file_mode (m : Metadata) : Nat := m.mode &&& FILE_MODE_MASK

def Metadata.is_file (m : Metadata) : Bool := mode_to_file_type m.mode == FileType.Regular.toNibble

def Metadata.is_dir (m : Metadata) : Bool := mode_to_file_type m.mode == FileType.Directory.toNibble

/-- Containing device ID + inode (`Metadata::id`). -/
def Metadata.id (m : Metadata) : Nat × Nat := (m.dev, m.ino)

def zero_on_overflow (value max : Nat) : Nat := if value > max then 0 else value

/-- Rust `try_into` between unsigned integer types, mapping the failure
to `ErrorKind::InvalidData` as every call site in the crate does. -/
def tryInto (bound v : Nat) : Except IoError Nat :=
  if v < bound then .ok v else .error .invalidData

def Metadata.read_odc (s : List Nat) : Except IoError (Metadata × List Nat) := do
  let (dev, s) ← read_octal_6 s
  let (ino, s) ← read_octal_6 s
  let (mode, s) ← read_octal_6 s
  let (uid, s) ← read_octal_6 s
  let (gid, s) ← read_octal_6 s
  let (nlink, s) ← read_octal_6 s
  let (rdev, s) ← read_octal_6 s
  let (mtime, s) ← read_octal_11 s
  let (name_len, s) ← read_octal_6 s
  let (file_size, s) ← read_octal_11 s
  .ok ({ dev := dev, ino := ino, mode := mode, uid := uid, gid := gid, nlink := nlink,
         rdev := rdev, mtime := mtime, name_len := name_len, file_size := file_size,
         check := 0 }, s)

def Metadata.write_odc (m : Metadata) : Except IoError (List Nat) := do
  let dev ← tryInto U32_BOUND m.dev
  let f1 ← write_octal_6 dev
  let ino ← tryInto U32_BOUND m.ino
  let f2 ← write_octal_6 ino
  let f3 ← write_octal_6 m.mode
  let f4 ← write_octal_6 m.uid
  let f5 ← write_octal_6 m.gid
  let f6 ← write_octal_6 m.nlink
  let rdev ← tryInto U32_BOUND m.rdev
  let f7 ← write_octal_6 rdev
  let f8 ← write_octal_11 (zero_on_overflow m.mtime MAX_11)
  let f9 ← write_octal_6 m.name_len
  let f10 ← write_octal_11 m.file_size
  .ok (ODC_MAGIC ++ f1 ++ f2 ++ f3 ++ f4 ++ f5 ++ f6 ++ f7 ++ f8 ++ f9 ++ f10)

def Metadata.read_newc (s : List Nat) : Except IoError (Metadata × List Nat) := do
  let (ino, s) ← read_hex_8 s
  let (mode, s) ← read_hex_8 s
  let (uid, s) ← read_hex_8 s
  let (gid, s) ← read_hex_8 s
  let (nlink, s) ← read_hex_8 s
  let (mtime, s) ← read_hex_8 s
  let (file_size, s) ← read_hex_8 s
  let (dev_major, s) ← read_hex_8 s
  let (dev_minor, s) ← read_hex_8 s
  let (rdev_major, s) ← read_hex_8 s
  let (rdev_minor, s) ← read_hex_8 s
  let (name_len, s) ← read_hex_8 s
  let (check, s) ← read_hex_8 s
  .ok ({ dev := makedev dev_major dev_minor, ino := ino, mode := mode, uid := uid,
         gid := gid, nlink := nlink, rdev := makedev rdev_major rdev_minor,
         mtime := mtime, name_len := name_len, file_size := file_size,
         check := check }, s)

def Metadata.write_newc (m : Metadata) (magic : List Nat) : Except IoError (List Nat) := do
  let ino ← tryInto U32_BOUND m.ino
  let fs ← tryInto U32_BOUND m.file_size
  .ok (magic ++ write_hex_8 ino ++ write_hex_8 m.mode ++ write_hex_8 m.uid ++
    write_hex_8 m.gid ++ write_hex_8 m.nlink ++
    write_hex_8 (zero_on_overflow m.mtime MAX_8) ++ write_hex_8 fs ++
    write_hex_8 (major m.dev) ++ write_hex_8 (minor m.dev) ++
    write_hex_8 (major m.rdev) ++ write_hex_8 (minor m.rdev) ++
    write_hex_8 m.name_len ++ write_hex_8 m.check)

def Metadata.read_bin (byteOrder : ByteOrder) (s : List Nat) :
    Except IoError (Metadata × List Nat) := do
  let r16 := match byteOrder with
    | .LittleEndian => read_binary_u16_le
    | .BigEndian => read_binary_u16_be
  let r32 := match byteOrder with
    | .LittleEndian => read_binary_u32_le
    | .BigEndian => read_binary_u32_be
  let (dev, s) ← r16 s
  let (ino, s) ← r16 s
  let (mode, s) ← r16 s
  let (uid, s) ← r16 s
  let (gid, s) ← r16 s
  let (nlink, s) ← r16 s
  let (majmin, s) ← r16 s
  let (mtime, s) ← r32 s
  let (name_len, s) ← r16 s
  let (file_size, s) ← r32 s
  .ok ({ dev := makedev (dev >>> 8 &&& 0xff) (dev &&& 0xff), ino := ino, mode := mode,
         uid := uid, gid := gid, nlink := nlink,
         rdev := makedev (majmin >>> 8 &&& 0xff) (majmin &&& 0xff), mtime := mtime,
         name_len := name_len, file_size := file_size, check := 0 }, s)

/-- Rust `dev64_to_dev16`: both halves must fit a `u8`. -/
def dev64_to_dev16 (dev : Nat) : Except IoError Nat := do
  let mj ← tryInto 256 (major dev)
  let mn ← tryInto 256 (minor dev)
  .ok ((mj <<< 8) ||| mn)

def Metadata.write_bin (m : Metadata) (byteOrder : ByteOrder) : Except IoError (List Nat) := do
  let w16 := match byteOrder with
    | .LittleEndian => write_binary_u16_le
    | .BigEndian => write_binary_u16_be
  let w32 := match byteOrder with
    | .LittleEndian => write_binary_u32_le
    | .BigEndian => write_binary_u32_be
  let magic := match byteOrder with
    | .LittleEndian => BIN_LE_MAGIC
    | .BigEndian => BIN_BE_MAGIC
  let dev ← dev64_to_dev16 m.dev
  let ino ← tryInto U16_BOUND m.ino
  let mode ← tryInto U16_BOUND m.mode
  let uid ← tryInto U16_BOUND m.uid
  let gid ← tryInto U16_BOUND m.gid
  let nlink ← tryInto U16_BOUND m.nlink
  let rdev ← dev64_to_dev16 m.rdev
  let mtime ← tryInto U32_BOUND m.mtime
  let name_len ← tryInto U16_BOUND m.name_len
  let file_size ← tryInto U32_BOUND m.file_size
  .ok (magic ++ w16 dev ++ w16 ino ++ w16 mode ++ w16 uid ++ w16 gid ++ w16 nlink ++
    w16 rdev ++ w32 mtime ++ w16 name_len ++ w32 file_size)

def Metadata.write (m : Metadata) (format : Format) : Except IoError (List Nat) :=
  match format with
  | .Bin byteOrder => m.write_bin byteOrder
  | .Odc => m.write_odc
  | .Newc => m.write_newc NEWC_MAGIC
  | .Crc => m.write_newc CRC_MAGIC

/-- Rust `Metadata::read_some`: magic detection followed by the per-variant
header decoder.  A `Read::read` call on a list-backed reader returns
`min(buffer length, bytes remaining)` bytes, so `nread != expected` is
exactly `remaining < expected`. -/
def Metadata.read_some (s : List Nat) :
    Except IoError (Option ((Metadata × Format) × List Nat)) :=
  match s with
  | b0 :: b1 :: s1 =>
    if [b0, b1] = BIN_LE_MAGIC then
      (Metadata.read_bin .LittleEndian s1).map fun p => some ((p.1, .Bin .LittleEndian), p.2)
    else if [b0, b1] = BIN_BE_MAGIC then
      (Metadata.read_bin .BigEndian s1).map fun p => some ((p.1, .Bin .BigEndian), p.2)
    else
      match s1 with
      | b2 :: b3 :: b4 :: b5 :: s2 =>
        if [b0, b1, b2, b3, b4, b5] = ODC_MAGIC then
          (Metadata.read_odc s2).map fun p => some ((p.1, .Odc), p.2)
        else if [b0, b1, b2, b3, b4, b5] = NEWC_MAGIC then
          (Metadata.read_newc s2).map fun p => some ((p.1, .Newc), p.2)
        else if [b0, b1, b2, b3, b4, b5] = CRC_MAGIC then
          (Metadata.read_newc s2).map fun p => some ((p.1, .Crc), p.2)
        else .error .otherErr
      -- the second `read` returned fewer than the four requested bytes:
      -- `nread != MAGIC_LEN - BIN_MAGIC_LEN` and the function returns `Ok(None)`
      | _ => .ok none
  -- the first `read` returned fewer than the two requested bytes:
  -- `nread != BIN_MAGIC_LEN` and the function returns `Ok(None)`
  | _ => .ok none

/-! Per-variant range predicates, derived from the encoders' checks. -/

/-- The odc encoder succeeds exactly when these fields fit their six- and
eleven-digit octal widths; `mtime` is absent because it is clamped. -/
def odcEncodable (m : Metadata) : Prop :=
  m.dev ≤ MAX_6 ∧ m.ino ≤ MAX_6 ∧ m.mode ≤ MAX_6 ∧ m.uid ≤ MAX_6 ∧ m.gid ≤ MAX_6 ∧
    m.nlink ≤ MAX_6 ∧ m.rdev ≤ MAX_6 ∧ m.name_len ≤ MAX_6 ∧ m.file_size ≤ MAX_11

instance (m : Metadata) : Decidable (odcEncodable m) := by
  unfold odcEncodable; infer_instance

/-- The newc/crc encoder succeeds exactly when `ino` and `file_size` fit a
`u32`; every other field is written unchecked. -/
def newcEncodable (m : Metadata) : Prop :=
  m.ino < U32_BOUND ∧ m.file_size < U32_BOUND

instance (m : Metadata) : Decidable (newcEncodable m) := by
  unfold newcEncodable; infer_instance

/-- The bin encoder succeeds exactly under these conditions; unlike
odc/newc it range-checks `mtime` too. -/
def binEncodable (m : Metadata) : Prop :=
  major m.dev < 256 ∧ minor m.dev < 256 ∧ m.ino < U16_BOUND ∧ m.mode < U16_BOUND ∧
    m.uid < U16_BOUND ∧ m.gid < U16_BOUND ∧ m.nlink < U16_BOUND ∧
    major m.rdev < 256 ∧ minor m.rdev < 256 ∧ m.mtime < U32_BOUND ∧
    m.name_len < U16_BOUND ∧ m.file_size < U32_BOUND

instance (m : Metadata) : Decidable (binEncodable m) := by
  unfold binEncodable; infer_instance

/-- Range within which a metadata value survives the encode/decode
round trip of the given variant unchanged, read off the per-variant field
widths: every field must fit its on-disk width (including `mtime`, which
would otherwise be clamped), `check` must be zero for the variants that do
not store it, and the device ids must survive the major/minor split. -/
def roundTripRange (f : Format) (m : Metadata) : Prop :=
  match f with
  | .Odc => odcEncodable m ∧ m.mtime ≤ MAX_11 ∧ m.check = 0
  | .Newc | .Crc =>
      m.ino < U32_BOUND ∧ m.mode < U32_BOUND ∧ m.uid < U32_BOUND ∧ m.gid < U32_BOUND ∧
        m.nlink < U32_BOUND ∧ m.mtime ≤ MAX_8 ∧ m.file_size < U32_BOUND ∧
        m.name_len < U32_BOUND ∧ m.check < U32_BOUND ∧
        makedev (major m.dev) (minor m.dev) = m.dev ∧
        makedev (major m.rdev) (minor m.rdev) = m.rdev
  | .Bin _ => binEncodable m ∧
      makedev (major m.dev) (minor m.dev) = m.dev ∧
      makedev (major m.rdev) (minor m.rdev) = m.rdev ∧ m.check = 0

instance (f : Format) (m : Metadata) : Decidable (roundTripRange f m) := by
  unfold roundTripRange
  cases f with
  | Bin byteOrder => infer_instance
  | Odc => infer_instance
  | Newc => infer_instance
  | Crc => infer_instance

/-! The CRC accumulator (`src/crc.rs`). -/

/-- Running sum of `CrcWriter::write`: `self.sum` is a `usize` (64 bits on
the targets the crate supports) updated with `wrapping_add` for every byte
written. -/
def crcFold (s : List Nat) (init : Nat) : Nat :=
  s.foldl (fun a b => (a + b) % U64_BOUND) init

/-- `CrcWriter::sum`: the accumulator masked to 32 bits. -/
def crcSum (s : List Nat) : Nat := crcFold s 0 &&& (U32_BOUND - 1)

/-- `read_and_verify_crc` from `Archive::read_entry`: read the whole
bounded payload, compare the accumulated sum with the stored `check`. -/
def read_and_verify_crc (bytes : List Nat) (check : Nat) : Except IoError (List Nat) :=
  if crcSum bytes ≠ check then .error .invalidData else .ok bytes

/-! The archive builder (`src/builder.rs`). -/

/-- Association-list model of `HashMap`: insertion prepends, lookup takes
the first match, so an inserted key shadows an older binding exactly as
`HashMap::insert` overwrites it. -/
def alookup {α β : Type} [DecidableEq α] : List (α × β) → α → Option β
  | [], _ => none
  | (k, v) :: rest, key => if k = key then some v else alookup rest key

/-- `HashMap::get_mut` followed by an assignment of the second component:
update the first binding of `key`, leave the map unchanged when absent. -/
def aupdateCheck (l : List ((Nat × Nat) × (Nat × Nat))) (key : Nat × Nat) (c : Nat) :
    List ((Nat × Nat) × (Nat × Nat)) :=
  match l with
  | [] => []
  | (k, v) :: rest =>
    if k = key then (k, (v.1, c)) :: rest else (k, v) :: aupdateCheck rest key c

/-- State of `Builder` (the writer itself is the byte list each operation
returns). -/
structure BuilderState where
  maxInode : Nat
  maxDev : Nat
  format : Format
  inodes : List ((Nat × Nat) × (Nat × Nat))
  devices : List (Nat × Nat)
deriving DecidableEq, Repr

/-- `Builder::remap_device_id`: odc/bin replace the 64-bit device id with
a freshly assigned short id; newc/crc keep it. -/
def remap_device_id (s : BuilderState) (m : Metadata) : Metadata × BuilderState :=
  match s.format with
  | .Odc | .Bin _ =>
    match alookup s.devices m.dev with
    | some d => ({ m with dev := d }, s)
    | none =>
      let d := s.maxDev
      ({ m with dev := d },
        { s with maxDev := (s.maxDev + 1) % U16_BOUND,
                 devices := (m.dev, d) :: s.devices })
  | .Newc | .Crc => (m, s)

/-- `Builder::remap_inode`: always replace the inode with a sequentially
assigned id; on a repeated `(dev, ino)` pair under newc/crc additionally
zero `file_size`, take the stored `check` and report a hard-link
secondary. -/
def remap_inode (s : BuilderState) (m : Metadata) : Metadata × Bool × BuilderState :=
  match alookup s.inodes (m.dev, m.ino) with
  | none =>
    let inode := s.maxInode
    ({ m with ino := inode }, false,
      { s with maxInode := (s.maxInode + 1) % U32_BOUND,
               inodes := ((m.dev, m.ino), (inode, 0)) :: s.inodes })
  | some (inode, check) =>
    match s.format with
    | .Newc | .Crc => ({ m with ino := inode, file_size := 0, check := check }, true, s)
    | .Odc | .Bin _ => ({ m with ino := inode }, false, s)

/-- `Builder::fix_header`: device and inode remapping, then the name-length
check against the variant's width (minus one for the NUL), then
`name_len := bytes(path) + 1`. -/
def fix_header (s : BuilderState) (m : Metadata) (name : List Nat) :
    Except IoError ((Metadata × Bool) × BuilderState) :=
  let (m1, s1) := remap_device_id s m
  let (m2, isHardLink, s2) := remap_inode s1 m1
  let max : Nat :=
    match s2.format with
    | .Newc | .Crc => MAX_8
    | .Odc => MAX_6
    | .Bin _ => U16_BOUND - 1
  if name.length > max - 1 then .error .invalidData
  else .ok (({ m2 with name_len := name.length + 1 }, isHardLink), s2)

/-- `Builder::append_entry` with the default `DoNotEditMetadata` editor (a
no-op).  Returns the metadata as written, the bytes appended to the output
stream, and the updated builder state.  When the header encoder fails the
stream is modelled as receiving no bytes (the claims below only concern
the result and the bytes of successful appends). -/
def append_entry (s : BuilderState) (m : Metadata) (name : List Nat) (data : List Nat) :
    Except IoError (Metadata × List Nat × BuilderState) := do
  let ((m1, isHardLink), s1) ← fix_header s m name
  let isCrc := s1.format == Format.Crc && m1.is_file && ! isHardLink
  -- CRC precompute: stream the data through the accumulator into a scratch
  -- buffer, record the sum, and update the inode-map entry found under the
  -- already-remapped id
  let m2 := if isCrc then { m1 with check := crcSum data } else m1
  let s2 := if isCrc then
      { s1 with inodes := aupdateCheck s1.inodes (m1.dev, m1.ino) (crcSum data) }
    else s1
  let header ← m2.write s2.format
  let pathBytes := write_path name s2.format
  if m2.file_size ≠ 0 then
    -- both branches copy all of `data`: the CRC scratch buffer holds exactly
    -- the bytes of `data`, and `std::io::copy` drains the reader
    let n := data.length
    if n ≠ m2.file_size then .error .invalidData
    else .ok (m2, header ++ pathBytes ++ data ++ write_file_padding n s2.format, s2)
  else .ok (m2, header ++ pathBytes, s2)

/-- `Builder::write_trailer`: an all-zero header except for `name_len`,
followed by the NUL-terminated trailer name and its padding. -/
def write_trailer (format : Format) : Except IoError (List Nat) := do
  let metadata : Metadata :=
    { dev := 0, ino := 0, mode := 0, uid := 0, gid := 0, nlink := 0, rdev := 0,
      mtime := 0, name_len := TRAILER.length + 1, file_size := 0, check := 0 }
  let header ← metadata.write format
  .ok (header ++ write_path TRAILER format)

/-! Paths.  `Archive::unpack` manipulates `std::path` values: this models a
Unix path as a root flag plus its `Component` list (`RootDir` is the flag;
`Prefix` does not occur on Unix). -/

/-- One path component in a relative position: `.`, `..` or a normal
name. -/
inductive Comp where
  | curDir
  | parentDir
  | normal (s : String)
deriving DecidableEq, Repr

structure RPath where
  abs : Bool
  comps : List Comp
deriving DecidableEq, Repr

/-- `entry.path.strip_prefix("/")` with the code's fallback: an absolute
path loses its root, a relative path is kept as is. -/
def stripRoot (p : RPath) : RPath := if p.abs then ⟨false, p.comps⟩ else p

/-- `Path::join`: an absolute right operand replaces the base. -/
def RPath.join (base p : RPath) : RPath :=
  if p.abs then p else ⟨base.abs, base.comps ++ p.comps⟩

/-- One step of the `normalize_path` crate's fold: `.` is dropped, `..`
pops the last component (`PathBuf::pop` at the root or on an empty
relative path does nothing), a normal name is pushed. -/
def normStep (acc : List String) : Comp → List String
  | .curDir => acc
  | .parentDir => acc.dropLast
  | .normal s => acc ++ [s]

/-- `NormalizePath::normalize` of the `normalize_path` crate: a purely
lexical fold over the components. -/
def RPath.normalize (p : RPath) : RPath :=
  ⟨p.abs, (p.comps.foldl normStep []).map Comp.normal⟩

/-- Component-list version of `Path::starts_with`. -/
def compsLe : List Comp → List Comp → Bool
  | [], _ => true
  | _ :: _, [] => false
  | a :: as, b :: bs => a == b && compsLe as bs

/-- `Path::starts_with`: the candidate base must agree on the root and be
a component-wise prefix. -/
def RPath.startsWith (p base : RPath) : Bool :=
  (p.abs == base.abs) && compsLe base.comps p.comps

/-! The unpack loop of `Archive::unpack`. -/

/-- The filesystem actions the unpack loop performs for an entry that
passed the path check: type-specific creation at the normalized target
path, `hard_link(original, path)` for a repeated inode, and the
truncate-and-copy rewrite applied when a hard-link secondary arrives with
a larger payload than its primary. -/
inductive Action where
  | create (path : RPath) (ftype : FileType)
  | hardLink (original path : RPath)
  | rewrite (path : RPath)
deriving DecidableEq, Repr

/-- Paths an action creates or writes through. -/
def Action.touches : Action → List RPath
  | .create p _ => [p]
  | .hardLink o p => [o, p]
  | .rewrite p => [p]

/-- One archive entry as the unpack loop consumes it: its header and its
path as decoded by `read_entry`. -/
structure UEntry where
  metadata : Metadata
  path : RPath
deriving DecidableEq, Repr

/-- Target path of an entry: strip a leading root, join with the
(already normalized) target directory, normalize. -/
def unpackTarget (dir : RPath) (e : UEntry) : RPath :=
  (dir.join (stripRoot e.path)).normalize

/-- The entry loop of `Archive::unpack` over already-decoded entries.
`links` is the hard-link replay map — keyed, exactly as in the code, by
`entry.metadata.ino()` alone — holding the first materialized path and
its `file_size`; `acc` accumulates the creation actions in order.
Parent-directory creation (`create_dir_all` on the parent of the in-root
target path) and the deferred directory-permission pass over already
created paths are not recorded as actions. -/
def unpackGo (dir : RPath) :
    List UEntry → List (Nat × (RPath × Nat)) → List Action → Except IoError (List Action)
  | [], _, acc => .ok acc
  | e :: rest, links, acc =>
    let p := unpackTarget dir e
    if p.startsWith dir then
      match alookup links e.metadata.ino with
      | some (original, originalSize) =>
        unpackGo dir rest links (acc ++ [Action.hardLink original p] ++
          (if e.metadata.is_file && decide (originalSize < e.metadata.file_size) then
            [Action.rewrite p]
          else []))
      | none =>
        let links1 := (e.metadata.ino, (p, e.metadata.file_size)) :: links
        match e.metadata.file_type with
        | .error err => .error err
        | .ok ftype => unpackGo dir rest links1 (acc ++ [Action.create p ftype])
    else unpackGo dir rest links acc

/-- `Archive::unpack`: normalize the target directory, then run the entry
loop with an empty hard-link map. -/
def unpack (dir : RPath) (entries : List UEntry) : Except IoError (List Action) :=
  unpackGo dir.normalize entries [] []

/-! The archive reader (`src/archive.rs`). -/

/-- State of an `Archive` reader: the unconsumed stream, the hard-link
content cache keyed by `(dev, ino)`, and the `verify_crc` option (the two
preserve options do not affect `read_entry`). -/
structure ArchiveState where
  stream : List Nat
  contents : List ((Nat × Nat) × List Nat)
  verify_crc : Bool
deriving DecidableEq, Repr

/-- What a yielded `Entry` exposes once its payload is fully read: the
header, the path bytes (without the NUL) and the payload bytes. -/
structure EntryData where
  metadata : Metadata
  path : List Nat
  contents : List Nat
  format : Format
deriving DecidableEq, Repr

/-- Stream repositioning performed by the entry's drop handler
(`EntryReader::discard`): consume the variant's post-payload padding;
errors from this read are ignored by `Drop`, so it consumes at most what
is available. -/
def discardFilePadding (len : Nat) (format : Format) (s : List Nat) : List Nat :=
  match format with
  | .Odc => s
  | .Newc | .Crc =>
    if len % NEWC_ALIGN ≠ 0 then s.drop (NEWC_ALIGN - len % NEWC_ALIGN) else s
  | .Bin _ => if len % BIN_ALIGN ≠ 0 then s.drop 1 else s

/-- `Archive::read_entry` composed with fully reading and dropping the
yielded entry, so the returned state is positioned at the next header.
Returns the decoded entry, or `none` on end of stream and on the trailer
(in both cases the reader keeps no flag: the state is simply whatever
remains).  When `read_some` reports end-of-stream it has consumed every
remaining byte (it read short), so the stream becomes empty. -/
def read_entry (a : ArchiveState) : Except IoError (Option EntryData × ArchiveState) :=
  match Metadata.read_some a.stream with
  | .error e => .error e
  | .ok none => .ok (none, { a with stream := [] })
  | .ok (some ((metadata, format), s0)) =>
    match read_path_buf metadata.name_len format s0 with
    | .error e => .error e
    | .ok (path, s1) =>
      if path = TRAILER then .ok (none, { a with stream := s1 })
      else
        match format with
        | .Newc | .Crc =>
          match metadata.file_type with
          | .error e => .error e
          | .ok ftype =>
            let verify := (format == Format.Crc) && a.verify_crc &&
              (ftype == FileType.Regular)
            let step : Except IoError (List ((Nat × Nat) × List Nat) × List Nat) :=
              if metadata.file_size ≠ 0 ∧ 1 < metadata.nlink ∧
                  ftype ≠ FileType.Directory then
                let payload := s1.take metadata.file_size
                let s2 := s1.drop metadata.file_size
                if verify then
                  match read_and_verify_crc payload metadata.check with
                  | .error e => .error e
                  | .ok c => .ok ((metadata.id, c) :: a.contents, s2)
                else .ok ((metadata.id, payload) :: a.contents, s2)
              else .ok (a.contents, s1)
            match step with
            | .error e => .error e
            | .ok (cache, s2) =>
              match alookup cache metadata.id with
              | some cached =>
                .ok (some ⟨metadata, path, cached, format⟩,
                  { a with stream := discardFilePadding metadata.file_size format s2,
                           contents := cache })
              | none =>
                if verify then
                  let payload := s2.take metadata.file_size
                  let s3 := s2.drop metadata.file_size
                  match read_and_verify_crc payload metadata.check with
                  | .error e => .error e
                  | .ok c =>
                    .ok (some ⟨metadata, path, c, format⟩,
                      { a with stream := discardFilePadding metadata.file_size format s3,
                               contents := cache })
                else
                  let payload := s2.take metadata.file_size
                  let s3 := s2.drop metadata.file_size
                  .ok (some ⟨metadata, path, payload, format⟩,
                    { a with stream := discardFilePadding metadata.file_size format s3,
                             contents := cache })
        | .Odc | .Bin _ =>
          let payload := s1.take metadata.file_size
          let s2 := s1.drop metadata.file_size
          .ok (some ⟨metadata, path, payload, format⟩,
            { a with stream := discardFilePadding metadata.file_size format s2 })

/-! Acceptance of the field parsers (claim C8). -/

/-- Whether every byte is a digit of the base. -/
def digitsOnly (base : Nat) (s : List Nat) : Bool :=
  s.all fun b => (digitOfByte base b).isSome

/-- Byte strings `from_str_radix` accepts, overflow aside: an optional
leading plus sign followed by at least one digit of the base. -/
def acceptedNumeral (base : Nat) (s : List Nat) : Bool :=
  match s with
  | [] => false
  | b :: rest =>
    if b = 43 then ! rest.isEmpty && digitsOnly base rest
    else digitsOnly base (b :: rest)

/-! Claim C9: what `read_entry` does after a trailer. -/

/-- Header of the trailer entry as the builder emits it for odc. -/
def c9TrailerMeta : Metadata :=
  { dev := 0, ino := 0, mode := 0, uid := 0, gid := 0, nlink := 0, rdev := 0,
    mtime := 0, name_len := 11, file_size := 0, check := 0 }

/-- The odc trailer record: header, the trailer name and its NUL (odc has
no padding). -/
def c9OdcTrailer : List Nat :=
  ODC_MAGIC ++ digitsToBytes 8 6 0 ++ digitsToBytes 8 6 0 ++ digitsToBytes 8 6 0 ++
    digitsToBytes 8 6 0 ++ digitsToBytes 8 6 0 ++ digitsToBytes 8 6 0 ++
    digitsToBytes 8 6 0 ++ digitsToBytes 8 11 0 ++ digitsToBytes 8 6 11 ++
    digitsToBytes 8 11 0 ++ (TRAILER ++ [0])

/-- A one-name regular-file entry (empty payload) in odc form, following
the trailer in the counterexample stream. -/
def c9EntryMeta : Metadata :=
  { dev := 0, ino := 0, mode := 0o100644, uid := 0, gid := 0, nlink := 1, rdev := 0,
    mtime := 0, name_len := 2, file_size := 0, check := 0 }

def c9OdcEntry : List Nat :=
  (c9EntryMeta.write Format.Odc).toOption.getD [] ++ write_path [97] Format.Odc

/-! Claims C3 and C5: the encode overflow policy and the header round
trip. -/

/-- Metadata whose fields are all in range for bin except `mtime`, which
exceeds the 32-bit width. -/
def c3Meta : Metadata :=
  { dev := 0, ino := 0, mode := 0, uid := 0, gid := 0, nlink := 0, rdev := 0,
    mtime := 4294967296, name_len := 1, file_size := 0, check := 0 }

/-- Metadata in odc range except for an over-width mtime; used to witness
the clamp. -/
def c3OdcMeta : Metadata :=
  { dev := 1, ino := 2, mode := 0o100644, uid := 3, gid := 4, nlink := 1, rdev := 0,
    mtime := 34359738368, name_len := 5, file_size := 6, check := 0 }

/-- Concrete in-range metadata for the round-trip witness. -/
def c5Meta : Metadata :=
  { dev := makedev 8 1, ino := 7, mode := 0o100644, uid := 1000, gid := 100, nlink := 2,
    rdev := 0, mtime := 1700000000, name_len := 10, file_size := 5, check := 0 }

def c7State : BuilderState :=
  { maxInode := 1, maxDev := 0, format := Format.Newc, inodes := [((1, 2), (0, 99))],
    devices := [] }

def c7Meta : Metadata :=
  { dev := 1, ino := 2, mode := 0o100644, uid := 0, gid := 0, nlink := 2, rdev := 0,
    mtime := 0, name_len := 0, file_size := 7, check := 0 }

def c10State : BuilderState :=
  { maxInode := 0, maxDev := 0, format := Format.Odc, inodes := [], devices := [] }

def c10Meta : Metadata :=
  { dev := 1, ino := 2, mode := 0o100644, uid := 0, gid := 0, nlink := 1, rdev := 0,
    mtime := 0, name_len := 0, file_size := 0, check := 0 }

def c6State : BuilderState :=
  { maxInode := 0, maxDev := 0, format := Format.Crc, inodes := [], devices := [] }

def c6Meta : Metadata :=
  { dev := 1, ino := 5, mode := 0o100644, uid := 0, gid := 0, nlink := 1, rdev := 0,
    mtime := 0, name_len := 0, file_size := 3, check := 0 }

def c6Fixed : Metadata := { c6Meta with ino := 0, name_len := 2 }

def c6State1 : BuilderState :=
  { maxInode := 1, maxDev := 0, format := Format.Crc, inodes := [((1, 5), (0, 0))],
    devices := [] }

def c6OutMeta : Metadata := { c6Fixed with check := 363 }

def c6OutBytes : List Nat :=
  [48, 55, 48, 55, 48, 50, 48, 48, 48, 48, 48, 48, 48, 48, 48, 48, 48, 48, 56, 49,
   97, 52, 48, 48, 48, 48, 48, 48, 48, 48, 48, 48, 48, 48, 48, 48, 48, 48, 48, 48,
   48, 48, 48, 48, 48, 49, 48, 48, 48, 48, 48, 48, 48, 48, 48, 48, 48, 48, 48, 48,
   48, 51, 48, 48, 48, 48, 48, 48, 48, 48, 48, 48, 48, 48, 48, 48, 48, 49, 48, 48,
   48, 48, 48, 48, 48, 48, 48, 48, 48, 48, 48, 48, 48, 48, 48, 48, 48, 48, 48, 48,
   48, 50, 48, 48, 48, 48, 48, 49, 54, 98, 97, 0, 120, 121, 122, 0]

def c2Dir : RPath := ⟨true, [.normal "t"]⟩

def c2Escape : UEntry :=
  ⟨{ dev := 1, ino := 1, mode := 0o100644, uid := 0, gid := 0, nlink := 1, rdev := 0,
     mtime := 0, name_len := 15, file_size := 0, check := 0 },
   ⟨false, [.parentDir, .normal "etc", .normal "passwd"]⟩⟩

def c1Dir : RPath := ⟨true, [.normal "t"]⟩

def c1E1 : UEntry :=
  ⟨{ dev := 1, ino := 5, mode := 0o100644, uid := 0, gid := 0, nlink := 1, rdev := 0,
     mtime := 0, name_len := 2, file_size := 3, check := 0 },
   ⟨false, [.normal "a"]⟩⟩

def c1E2 : UEntry :=
  ⟨{ dev := 2, ino := 5, mode := 0o100644, uid := 0, gid := 0, nlink := 1, rdev := 0,
     mtime := 0, name_len := 2, file_size := 3, check := 0 },
   ⟨false, [.normal "b"]⟩⟩

/-! Round-trip lemmas for the fixed-width field codec. -/

theorem padDigits_length (b : Nat) : ∀ w v, (padDigits b w v).length = w := by
  intro w
  induction w with
  | zero => intro v; rfl
  | succ w ih => intro v; simp [padDigits, ih]

theorem digitsToBytes_length (b w v : Nat) : (digitsToBytes b w v).length = w := by
  simp [digitsToBytes, padDigits_length]

theorem asciiDigit_ge (d : Nat) : 48 ≤ asciiDigit d := by
  unfold asciiDigit; split <;> omega

theorem digitOfByte_asciiDigit (base d : Nat) (hb : base ≤ 16) (hd : d < base) :
    digitOfByte base (asciiDigit d) = some d := by
  unfold digitOfByte asciiDigit
  by_cases h : d < 10
  · have h1 : 48 ≤ 48 + d ∧ 48 + d ≤ 57 := by omega
    have e1 : 48 + d - 48 = d := by omega
    simp [h, h1, e1, hd]
  · have h1 : ¬ (48 ≤ 87 + d ∧ 87 + d ≤ 57) := by omega
    have h2 : 97 ≤ 87 + d ∧ 87 + d ≤ 122 := by omega
    have e1 : 87 + d - 87 = d := by omega
    simp [h, h1, h2, e1, hd]

theorem parseDigits_append (base limit : Nat) (l1 l2 : List Nat) : ∀ acc,
    parseDigits base limit (l1 ++ l2) acc =
      (parseDigits base limit l1 acc).bind (parseDigits base limit l2) := by
  induction l1 with
  | nil => intro acc; simp [parseDigits]
  | cons b t ih =>
    intro acc
    simp only [List.cons_append, parseDigits]
    cases digitOfByte base b with
    | none => simp
    | some d =>
      simp only
      split
      · exact ih _
      · simp

theorem parseDigits_acc_le (base limit : Nat) (hb : 1 ≤ base) (l : List Nat) :
    ∀ acc r, parseDigits base limit l acc = some r → acc ≤ r := by
  induction l with
  | nil => intro acc r h; simp [parseDigits] at h; omega
  | cons b t ih =>
    intro acc r h
    simp only [parseDigits] at h
    cases hd : digitOfByte base b with
    | none => rw [hd] at h; exact absurd h (by simp)
    | some d =>
      rw [hd] at h
      simp only at h
      split at h
      · have := ih _ _ h
        have : acc * base + d ≤ r := this
        have h2 : acc ≤ acc * base := Nat.le_mul_of_pos_right acc hb
        omega
      · exact absurd h (by simp)

theorem parseDigits_padDigits (base limit : Nat) (hb2 : 2 ≤ base) (hb16 : base ≤ 16) :
    ∀ w v acc, v < base ^ w → acc * base ^ w + v ≤ limit →
      parseDigits base limit ((padDigits base w v).map asciiDigit) acc =
        some (acc * base ^ w + v) := by
  intro w
  induction w with
  | zero =>
    intro v acc hv hlim
    have hv0 : v = 0 := by simpa using hv
    simp [padDigits, parseDigits, hv0]
  | succ w ih =>
    intro v acc hv hlim
    have hbpos : 0 < base := by omega
    have hq : v / base < base ^ w := by
      rw [Nat.div_lt_iff_lt_mul hbpos]
      calc v < base ^ (w + 1) := hv
        _ = base ^ w * base := by rw [pow_succ]
    have hdm : base * (v / base) + v % base = v := Nat.div_add_mod v base
    have hkey : (acc * base ^ w + v / base) * base + v % base = acc * base ^ (w + 1) + v := by
      rw [pow_succ]
      calc (acc * base ^ w + v / base) * base + v % base
          = acc * (base ^ w * base) + (base * (v / base) + v % base) := by ring
        _ = acc * (base ^ w * base) + v := by rw [hdm]
    have hle1 : acc * base ^ w + v / base ≤ limit := by
      have h1 : acc * base ^ w + v / base ≤ (acc * base ^ w + v / base) * base :=
        Nat.le_mul_of_pos_right _ hbpos
      omega
    simp only [padDigits, List.map_append, parseDigits_append]
    rw [ih (v / base) acc hq hle1]
    have hdig := digitOfByte_asciiDigit base (v % base) hb16 (Nat.mod_lt v hbpos)
    simp only [Option.some_bind, List.map_cons, List.map_nil, parseDigits, hdig]
    rw [hkey, if_pos hlim]

theorem padDigits_ne_nil (b w v : Nat) (hw : 0 < w) : padDigits b w v ≠ [] := by
  intro h
  have := padDigits_length b w v
  rw [h] at this
  simp at this
  omega

theorem fromStrRadix_digitsToBytes (base limit w v : Nat) (hb2 : 2 ≤ base)
    (hb16 : base ≤ 16) (hw : 0 < w) (hv : v < base ^ w) (hlim : v ≤ limit) :
    fromStrRadix base limit (digitsToBytes base w v) = some v := by
  have hmain := parseDigits_padDigits base limit hb2 hb16 w v 0 hv (by simpa using hlim)
  cases hpd : padDigits base w v with
  | nil => exact absurd hpd (padDigits_ne_nil base w v hw)
  | cons d t =>
    rw [hpd] at hmain
    unfold digitsToBytes
    rw [hpd]
    simp only [List.map_cons] at hmain ⊢
    simp only [fromStrRadix]
    have h43 : asciiDigit d ≠ 43 := by
      have := asciiDigit_ge d
      omega
    rw [if_neg h43]
    simpa using hmain

@[simp] theorem bindOk {ε α β : Type} (a : α) (f : α → Except ε β) :
    (Except.ok a : Except ε α) >>= f = f a := rfl

@[simp] theorem bindError {ε α β : Type} (e : ε) (f : α → Except ε β) :
    (Except.error e : Except ε α) >>= f = Except.error e := rfl

theorem write_octal_6_ok (v : Nat) (h : v ≤ MAX_6) :
    write_octal_6 v = .ok (digitsToBytes 8 6 v) := by
  unfold write_octal_6
  rw [if_neg (by omega)]

theorem write_octal_11_ok (v : Nat) (h : v ≤ MAX_11) :
    write_octal_11 v = .ok (digitsToBytes 8 11 v) := by
  unfold write_octal_11
  rw [if_neg (by omega)]

theorem read_octal_6_rt (v : Nat) (rest : List Nat) (h : v ≤ MAX_6) :
    read_octal_6 (digitsToBytes 8 6 v ++ rest) = .ok (v, rest) := by
  have hlen : (digitsToBytes 8 6 v).length = 6 := digitsToBytes_length 8 6 v
  have hv : v < 8 ^ 6 := by
    simp only [MAX_6] at h
    omega
  have hlim : v ≤ U32_BOUND - 1 := by
    simp only [MAX_6] at h
    simp only [U32_BOUND]
    omega
  unfold read_octal_6 readExact
  rw [if_pos (by simp [hlen])]
  simp only [List.take_left' hlen, List.drop_left' hlen, bindOk]
  rw [fromStrRadix_digitsToBytes 8 (U32_BOUND - 1) 6 v (by omega) (by omega) (by omega) hv hlim]

theorem read_octal_11_rt (v : Nat) (rest : List Nat) (h : v ≤ MAX_11) :
    read_octal_11 (digitsToBytes 8 11 v ++ rest) = .ok (v, rest) := by
  have hlen : (digitsToBytes 8 11 v).length = 11 := digitsToBytes_length 8 11 v
  have hv : v < 8 ^ 11 := by
    simp only [MAX_11] at h
    omega
  have hlim : v ≤ U64_BOUND - 1 := by
    simp only [MAX_11] at h
    simp only [U64_BOUND]
    omega
  unfold read_octal_11 readExact
  rw [if_pos (by simp [hlen])]
  simp only [List.take_left' hlen, List.drop_left' hlen, bindOk]
  rw [fromStrRadix_digitsToBytes 8 (U64_BOUND - 1) 11 v (by omega) (by omega) (by omega) hv hlim]

theorem read_hex_8_rt (v : Nat) (rest : List Nat) (h : v < U32_BOUND) :
    read_hex_8 (digitsToBytes 16 8 v ++ rest) = .ok (v, rest) := by
  have hlen : (digitsToBytes 16 8 v).length = 8 := digitsToBytes_length 16 8 v
  have hv : v < 16 ^ 8 := by
    simp only [U32_BOUND] at h
    omega
  have hlim : v ≤ U32_BOUND - 1 := by
    simp only [U32_BOUND] at h ⊢
    omega
  unfold read_hex_8 readExact
  rw [if_pos (by simp [hlen])]
  simp only [List.take_left' hlen, List.drop_left' hlen, bindOk]
  rw [fromStrRadix_digitsToBytes 16 (U32_BOUND - 1) 8 v (by omega) (by omega) (by omega) hv hlim]

theorem read_binary_u16_le_rt (v : Nat) (rest : List Nat) (h : v < U16_BOUND) :
    read_binary_u16_le (write_binary_u16_le v ++ rest) = .ok (v, rest) := by
  simp only [U16_BOUND] at h
  unfold read_binary_u16_le write_binary_u16_le readExact
  simp only [List.cons_append, List.nil_append, List.length_cons]
  rw [if_pos (by omega)]
  simp only [List.take, List.drop, List.getD, bindOk]
  have : v % 256 + 256 * (v / 256 % 256) = v := by omega
  simp [this]

theorem read_binary_u16_be_rt (v : Nat) (rest : List Nat) (h : v < U16_BOUND) :
    read_binary_u16_be (write_binary_u16_be v ++ rest) = .ok (v, rest) := by
  simp only [U16_BOUND] at h
  unfold read_binary_u16_be write_binary_u16_be readExact
  simp only [List.cons_append, List.nil_append, List.length_cons]
  rw [if_pos (by omega)]
  simp only [List.take, List.drop, List.getD, bindOk]
  have : 256 * (v / 256 % 256) + v % 256 = v := by omega
  simp [this]

theorem shl_or_eq (k a b : Nat) (hb : b < 2 ^ k) : (a <<< k) ||| b = a * 2 ^ k + b := by
  rw [Nat.shiftLeft_eq, Nat.mul_comm a (2 ^ k), Nat.mul_add_lt_is_or hb a]

theorem high_shift_or_low (high low : Nat) (h : low < U16_BOUND) :
    (high <<< 16) ||| low = high * 2 ^ 16 + low :=
  shl_or_eq 16 high low h

theorem read_binary_u32_le_rt (v : Nat) (rest : List Nat) (h : v < U32_BOUND) :
    read_binary_u32_le (write_binary_u32_le v ++ rest) = .ok (v, rest) := by
  simp only [U32_BOUND] at h
  have hhi : v >>> 16 % U16_BOUND = v / 2 ^ 16 := by
    rw [Nat.shiftRight_eq_div_pow]
    simp only [U16_BOUND]
    omega
  have hhi2 : v / 2 ^ 16 < U16_BOUND := by
    simp only [U16_BOUND]
    omega
  have hlo : v % U16_BOUND < U16_BOUND := Nat.mod_lt _ (by simp [U16_BOUND])
  unfold read_binary_u32_le write_binary_u32_le
  rw [hhi, List.append_assoc]
  rw [read_binary_u16_le_rt _ _ hhi2]
  simp only [bindOk]
  rw [read_binary_u16_le_rt _ _ hlo]
  simp only [bindOk]
  rw [high_shift_or_low _ _ hlo]
  have : v / 2 ^ 16 * 2 ^ 16 + v % U16_BOUND = v := by
    simp only [U16_BOUND]
    omega
  rw [this]

theorem read_binary_u32_be_rt (v : Nat) (rest : List Nat) (h : v < U32_BOUND) :
    read_binary_u32_be (write_binary_u32_be v ++ rest) = .ok (v, rest) := by
  simp only [U32_BOUND] at h
  have hhi : v >>> 16 % U16_BOUND = v / 2 ^ 16 := by
    rw [Nat.shiftRight_eq_div_pow]
    simp only [U16_BOUND]
    omega
  have hhi2 : v / 2 ^ 16 < U16_BOUND := by
    simp only [U16_BOUND]
    omega
  have hlo : v % U16_BOUND < U16_BOUND := Nat.mod_lt _ (by simp [U16_BOUND])
  unfold read_binary_u32_be write_binary_u32_be
  rw [hhi, List.append_assoc]
  rw [read_binary_u16_be_rt _ _ hhi2]
  simp only [bindOk]
  rw [read_binary_u16_be_rt _ _ hlo]
  simp only [bindOk]
  rw [high_shift_or_low _ _ hlo]
  have : v / 2 ^ 16 * 2 ^ 16 + v % U16_BOUND = v := by
    simp only [U16_BOUND]
    omega
  rw [this]

theorem read_padding_rt (len : Nat) (rest : List Nat) :
    read_padding len (write_padding_newc len ++ rest) = .ok rest := by
  unfold read_padding write_padding_newc readExact
  by_cases h : len % NEWC_ALIGN ≠ 0
  · have hlen : (List.replicate (NEWC_ALIGN - len % NEWC_ALIGN) (0 : Nat)).length =
        NEWC_ALIGN - len % NEWC_ALIGN := List.length_replicate _ _
    rw [if_pos h, if_pos h]
    rw [if_pos (by simp [hlen])]
    simp only [List.drop_left' hlen, bindOk]
  · rw [if_neg h, if_neg h]
    simp

theorem read_padding_bin_rt (len : Nat) (rest : List Nat) :
    read_padding_bin len (write_padding_bin len ++ rest) = .ok rest := by
  unfold read_padding_bin write_padding_bin readExact
  by_cases h : len % BIN_ALIGN ≠ 0
  · rw [if_pos h, if_pos h]
    simp [List.drop]
  · rw [if_neg h, if_neg h]
    simp

theorem zero_on_overflow_of_le (v max : Nat) (h : v ≤ max) : zero_on_overflow v max = v := by
  unfold zero_on_overflow
  rw [if_neg (by omega)]

theorem zero_on_overflow_le (v max : Nat) : zero_on_overflow v max ≤ max := by
  unfold zero_on_overflow
  split <;> omega

theorem major_lt (d : Nat) : major d < U32_BOUND := by
  unfold major U32_BOUND
  exact Nat.or_lt_two_pow
    (lt_of_le_of_lt Nat.and_le_right (by norm_num))
    (lt_of_le_of_lt Nat.and_le_right (by norm_num))

theorem minor_lt (d : Nat) : minor d < U32_BOUND := by
  unfold minor U32_BOUND
  exact Nat.or_lt_two_pow
    (lt_of_le_of_lt Nat.and_le_right (by norm_num))
    (lt_of_le_of_lt Nat.and_le_right (by norm_num))

theorem dev16_eq (mj mn : Nat) (hmn : mn < 256) : (mj <<< 8) ||| mn = mj * 256 + mn := by
  have := shl_or_eq 8 mj mn (by omega)
  simpa using this

theorem dev16_unpack_major (mj mn : Nat) (hmj : mj < 256) (hmn : mn < 256) :
    ((mj <<< 8) ||| mn) >>> 8 &&& 0xff = mj := by
  rw [dev16_eq mj mn hmn, Nat.shiftRight_eq_div_pow]
  rw [show (0xff : Nat) = 2 ^ 8 - 1 from rfl, Nat.and_pow_two_sub_one_eq_mod]
  have h1 : (mj * 256 + mn) / 2 ^ 3 / 2 ^ 5 = mj := by omega
  simp only [Nat.pow_succ]
  omega

theorem dev16_unpack_minor (mj mn : Nat) (hmn : mn < 256) :
    ((mj <<< 8) ||| mn) &&& 0xff = mn := by
  rw [dev16_eq mj mn hmn]
  rw [show (0xff : Nat) = 2 ^ 8 - 1 from rfl, Nat.and_pow_two_sub_one_eq_mod]
  omega

/-! Explicit byte images of the successful encoders. -/

theorem write_odc_eq (m : Metadata) (h : odcEncodable m) :
    m.write_odc = .ok (ODC_MAGIC ++ digitsToBytes 8 6 m.dev ++ digitsToBytes 8 6 m.ino ++
      digitsToBytes 8 6 m.mode ++ digitsToBytes 8 6 m.uid ++ digitsToBytes 8 6 m.gid ++
      digitsToBytes 8 6 m.nlink ++ digitsToBytes 8 6 m.rdev ++
      digitsToBytes 8 11 (zero_on_overflow m.mtime MAX_11) ++
      digitsToBytes 8 6 m.name_len ++ digitsToBytes 8 11 m.file_size) := by
  obtain ⟨h1, h2, h3, h4, h5, h6, h7, h8, h9⟩ := h
  have d1 : m.dev < U32_BOUND := by simp only [MAX_6, U32_BOUND] at *; omega
  have d2 : m.ino < U32_BOUND := by simp only [MAX_6, U32_BOUND] at *; omega
  have d3 : m.rdev < U32_BOUND := by simp only [MAX_6, U32_BOUND] at *; omega
  unfold Metadata.write_odc tryInto
  rw [if_pos d1]
  simp only [bindOk]
  rw [write_octal_6_ok _ h1]
  simp only [bindOk]
  rw [if_pos d2]
  simp only [bindOk]
  rw [write_octal_6_ok _ h2, write_octal_6_ok _ h3, write_octal_6_ok _ h4,
    write_octal_6_ok _ h5, write_octal_6_ok _ h6]
  simp only [bindOk]
  rw [if_pos d3]
  simp only [bindOk]
  rw [write_octal_6_ok _ h7,
    write_octal_11_ok _ (zero_on_overflow_le m.mtime MAX_11),
    write_octal_6_ok _ h8, write_octal_11_ok _ h9]
  simp only [bindOk]

theorem write_newc_eq (m : Metadata) (magic : List Nat) (h : newcEncodable m) :
    m.write_newc magic = .ok (magic ++ write_hex_8 m.ino ++ write_hex_8 m.mode ++
      write_hex_8 m.uid ++ write_hex_8 m.gid ++ write_hex_8 m.nlink ++
      write_hex_8 (zero_on_overflow m.mtime MAX_8) ++ write_hex_8 m.file_size ++
      write_hex_8 (major m.dev) ++ write_hex_8 (minor m.dev) ++
      write_hex_8 (major m.rdev) ++ write_hex_8 (minor m.rdev) ++
      write_hex_8 m.name_len ++ write_hex_8 m.check) := by
  obtain ⟨h1, h2⟩ := h
  unfold Metadata.write_newc tryInto
  rw [if_pos h1]
  simp only [bindOk]
  rw [if_pos h2]
  simp only [bindOk]

theorem write_bin_eq (m : Metadata) (byteOrder : ByteOrder) (h : binEncodable m) :
    m.write_bin byteOrder =
      (match byteOrder with
        | .LittleEndian => .ok (BIN_LE_MAGIC ++
            write_binary_u16_le ((major m.dev <<< 8) ||| minor m.dev) ++
            write_binary_u16_le m.ino ++ write_binary_u16_le m.mode ++
            write_binary_u16_le m.uid ++ write_binary_u16_le m.gid ++
            write_binary_u16_le m.nlink ++
            write_binary_u16_le ((major m.rdev <<< 8) ||| minor m.rdev) ++
            write_binary_u32_le m.mtime ++ write_binary_u16_le m.name_len ++
            write_binary_u32_le m.file_size)
        | .BigEndian => .ok (BIN_BE_MAGIC ++
            write_binary_u16_be ((major m.dev <<< 8) ||| minor m.dev) ++
            write_binary_u16_be m.ino ++ write_binary_u16_be m.mode ++
            write_binary_u16_be m.uid ++ write_binary_u16_be m.gid ++
            write_binary_u16_be m.nlink ++
            write_binary_u16_be ((major m.rdev <<< 8) ||| minor m.rdev) ++
            write_binary_u32_be m.mtime ++ write_binary_u16_be m.name_len ++
            write_binary_u32_be m.file_size)) := by
  obtain ⟨h1, h2, h3, h4, h5, h6, h7, h8, h9, h10, h11, h12⟩ := h
  unfold Metadata.write_bin dev64_to_dev16 tryInto
  cases byteOrder <;>
    simp only [bindOk, if_pos h1, if_pos h2, if_pos h3, if_pos h4, if_pos h5, if_pos h6,
      if_pos h7, if_pos h8, if_pos h9, if_pos h10, if_pos h11, if_pos h12]

/-! Magic dispatch of `Metadata::read_some` on each encoder's output. -/

theorem read_some_odc (R : List Nat) :
    Metadata.read_some (ODC_MAGIC ++ R) =
      (Metadata.read_odc R).map fun p => some ((p.1, .Odc), p.2) := by
  simp [Metadata.read_some, ODC_MAGIC, BIN_LE_MAGIC, BIN_BE_MAGIC, NEWC_MAGIC, CRC_MAGIC]

theorem read_some_newc (R : List Nat) :
    Metadata.read_some (NEWC_MAGIC ++ R) =
      (Metadata.read_newc R).map fun p => some ((p.1, .Newc), p.2) := by
  simp [Metadata.read_some, ODC_MAGIC, BIN_LE_MAGIC, BIN_BE_MAGIC, NEWC_MAGIC, CRC_MAGIC]

theorem read_some_crc (R : List Nat) :
    Metadata.read_some (CRC_MAGIC ++ R) =
      (Metadata.read_newc R).map fun p => some ((p.1, .Crc), p.2) := by
  simp [Metadata.read_some, ODC_MAGIC, BIN_LE_MAGIC, BIN_BE_MAGIC, NEWC_MAGIC, CRC_MAGIC]

theorem read_some_bin_le (R : List Nat) :
    Metadata.read_some (BIN_LE_MAGIC ++ R) =
      (Metadata.read_bin .LittleEndian R).map fun p =>
        some ((p.1, .Bin .LittleEndian), p.2) := by
  simp [Metadata.read_some, BIN_LE_MAGIC, BIN_BE_MAGIC]

theorem read_some_bin_be (R : List Nat) :
    Metadata.read_some (BIN_BE_MAGIC ++ R) =
      (Metadata.read_bin .BigEndian R).map fun p =>
        some ((p.1, .Bin .BigEndian), p.2) := by
  simp [Metadata.read_some, BIN_LE_MAGIC, BIN_BE_MAGIC]

theorem read_octal_11_rt_nil (v : Nat) (h : v ≤ MAX_11) :
    read_octal_11 (digitsToBytes 8 11 v) = .ok (v, []) := by
  have := read_octal_11_rt v [] h
  rwa [List.append_nil] at this

theorem read_hex_8_rt_nil (v : Nat) (h : v < U32_BOUND) :
    read_hex_8 (digitsToBytes 16 8 v) = .ok (v, []) := by
  have := read_hex_8_rt v [] h
  rwa [List.append_nil] at this

theorem read_binary_u32_le_rt_nil (v : Nat) (h : v < U32_BOUND) :
    read_binary_u32_le (write_binary_u32_le v) = .ok (v, []) := by
  have := read_binary_u32_le_rt v [] h
  rwa [List.append_nil] at this

theorem read_binary_u32_be_rt_nil (v : Nat) (h : v < U32_BOUND) :
    read_binary_u32_be (write_binary_u32_be v) = .ok (v, []) := by
  have := read_binary_u32_be_rt v [] h
  rwa [List.append_nil] at this

theorem odc_round_trip (m : Metadata) (h : odcEncodable m) (hm : m.mtime ≤ MAX_11)
    (hc : m.check = 0) :
    ∃ bytes, m.write .Odc = .ok bytes ∧
      Metadata.read_some bytes = .ok (some ((m, .Odc), [])) := by
  obtain ⟨h1, h2, h3, h4, h5, h6, h7, h8, h9⟩ := h
  refine ⟨_, write_odc_eq m ⟨h1, h2, h3, h4, h5, h6, h7, h8, h9⟩, ?_⟩
  rw [zero_on_overflow_of_le _ _ hm]
  simp only [List.append_assoc]
  rw [read_some_odc]
  have hread : Metadata.read_odc (digitsToBytes 8 6 m.dev ++ (digitsToBytes 8 6 m.ino ++
      (digitsToBytes 8 6 m.mode ++ (digitsToBytes 8 6 m.uid ++ (digitsToBytes 8 6 m.gid ++
      (digitsToBytes 8 6 m.nlink ++ (digitsToBytes 8 6 m.rdev ++
      (digitsToBytes 8 11 m.mtime ++ (digitsToBytes 8 6 m.name_len ++
      digitsToBytes 8 11 m.file_size))))))))) = .ok (m, []) := by
    unfold Metadata.read_odc
    rw [read_octal_6_rt _ _ h1]
    simp only [bindOk]
    rw [read_octal_6_rt _ _ h2]
    simp only [bindOk]
    rw [read_octal_6_rt _ _ h3]
    simp only [bindOk]
    rw [read_octal_6_rt _ _ h4]
    simp only [bindOk]
    rw [read_octal_6_rt _ _ h5]
    simp only [bindOk]
    rw [read_octal_6_rt _ _ h6]
    simp only [bindOk]
    rw [read_octal_6_rt _ _ h7]
    simp only [bindOk]
    rw [read_octal_11_rt _ _ hm]
    simp only [bindOk]
    rw [read_octal_6_rt _ _ h8]
    simp only [bindOk]
    rw [read_octal_11_rt_nil _ h9]
    simp only [bindOk]
    rw [← hc]
  rw [hread]
  rfl

theorem read_newc_fields (m : Metadata) (hino : m.ino < U32_BOUND)
    (hmode : m.mode < U32_BOUND) (huid : m.uid < U32_BOUND) (hgid : m.gid < U32_BOUND)
    (hnlink : m.nlink < U32_BOUND) (hmt : m.mtime ≤ MAX_8) (hfs : m.file_size < U32_BOUND)
    (hnl : m.name_len < U32_BOUND) (hchk : m.check < U32_BOUND)
    (hdev : makedev (major m.dev) (minor m.dev) = m.dev)
    (hrdev : makedev (major m.rdev) (minor m.rdev) = m.rdev) :
    Metadata.read_newc (write_hex_8 m.ino ++ (write_hex_8 m.mode ++ (write_hex_8 m.uid ++
      (write_hex_8 m.gid ++ (write_hex_8 m.nlink ++ (write_hex_8 m.mtime ++
      (write_hex_8 m.file_size ++ (write_hex_8 (major m.dev) ++
      (write_hex_8 (minor m.dev) ++ (write_hex_8 (major m.rdev) ++
      (write_hex_8 (minor m.rdev) ++ (write_hex_8 m.name_len ++
      write_hex_8 m.check)))))))))))) = .ok (m, []) := by
  have hmt32 : m.mtime < U32_BOUND := by
    simp only [MAX_8] at hmt
    simp only [U32_BOUND]
    omega
  unfold Metadata.read_newc
  simp only [write_hex_8]
  rw [read_hex_8_rt _ _ hino]
  simp only [bindOk]
  rw [read_hex_8_rt _ _ hmode]
  simp only [bindOk]
  rw [read_hex_8_rt _ _ huid]
  simp only [bindOk]
  rw [read_hex_8_rt _ _ hgid]
  simp only [bindOk]
  rw [read_hex_8_rt _ _ hnlink]
  simp only [bindOk]
  rw [read_hex_8_rt _ _ hmt32]
  simp only [bindOk]
  rw [read_hex_8_rt _ _ hfs]
  simp only [bindOk]
  rw [read_hex_8_rt _ _ (major_lt m.dev)]
  simp only [bindOk]
  rw [read_hex_8_rt _ _ (minor_lt m.dev)]
  simp only [bindOk]
  rw [read_hex_8_rt _ _ (major_lt m.rdev)]
  simp only [bindOk]
  rw [read_hex_8_rt _ _ (minor_lt m.rdev)]
  simp only [bindOk]
  rw [read_hex_8_rt _ _ hnl]
  simp only [bindOk]
  rw [read_hex_8_rt_nil _ hchk]
  simp only [bindOk]
  rw [hdev, hrdev]

theorem newc_round_trip (m : Metadata) (magic : List Nat) (f : Format)
    (hino : m.ino < U32_BOUND) (hmode : m.mode < U32_BOUND) (huid : m.uid < U32_BOUND)
    (hgid : m.gid < U32_BOUND) (hnlink : m.nlink < U32_BOUND) (hmt : m.mtime ≤ MAX_8)
    (hfs : m.file_size < U32_BOUND) (hnl : m.name_len < U32_BOUND)
    (hchk : m.check < U32_BOUND)
    (hdev : makedev (major m.dev) (minor m.dev) = m.dev)
    (hrdev : makedev (major m.rdev) (minor m.rdev) = m.rdev)
    (hdispatch : ∀ R, Metadata.read_some (magic ++ R) =
      (Metadata.read_newc R).map fun p => some ((p.1, f), p.2)) :
    ∃ bytes, m.write_newc magic = .ok bytes ∧
      Metadata.read_some bytes = .ok (some ((m, f), [])) := by
  refine ⟨_, write_newc_eq m magic ⟨hino, hfs⟩, ?_⟩
  rw [zero_on_overflow_of_le _ _ hmt]
  simp only [List.append_assoc]
  rw [hdispatch]
  rw [read_newc_fields m hino hmode huid hgid hnlink hmt hfs hnl hchk hdev hrdev]
  rfl

theorem bin_round_trip (m : Metadata) (byteOrder : ByteOrder) (h : binEncodable m)
    (hdev : makedev (major m.dev) (minor m.dev) = m.dev)
    (hrdev : makedev (major m.rdev) (minor m.rdev) = m.rdev) (hc : m.check = 0) :
    ∃ bytes, m.write_bin byteOrder = .ok bytes ∧
      Metadata.read_some bytes = .ok (some ((m, .Bin byteOrder), [])) := by
  obtain ⟨h1, h2, h3, h4, h5, h6, h7, h8, h9, h10, h11, h12⟩ := h
  have hdev16 : (major m.dev <<< 8) ||| minor m.dev < U16_BOUND := by
    rw [dev16_eq _ _ h2]
    simp only [U16_BOUND]
    omega
  have hrdev16 : (major m.rdev <<< 8) ||| minor m.rdev < U16_BOUND := by
    rw [dev16_eq _ _ h9]
    simp only [U16_BOUND]
    omega
  cases byteOrder with
  | LittleEndian =>
    refine ⟨_, write_bin_eq m .LittleEndian
      ⟨h1, h2, h3, h4, h5, h6, h7, h8, h9, h10, h11, h12⟩, ?_⟩
    simp only [List.append_assoc]
    rw [read_some_bin_le]
    have hread : Metadata.read_bin .LittleEndian
        (write_binary_u16_le ((major m.dev <<< 8) ||| minor m.dev) ++
          (write_binary_u16_le m.ino ++ (write_binary_u16_le m.mode ++
          (write_binary_u16_le m.uid ++ (write_binary_u16_le m.gid ++
          (write_binary_u16_le m.nlink ++
          (write_binary_u16_le ((major m.rdev <<< 8) ||| minor m.rdev) ++
          (write_binary_u32_le m.mtime ++ (write_binary_u16_le m.name_len ++
          write_binary_u32_le m.file_size))))))))) = .ok (m, []) := by
      simp only [Metadata.read_bin]
      rw [read_binary_u16_le_rt _ _ hdev16]
      simp only [bindOk]
      rw [read_binary_u16_le_rt _ _ h3]
      simp only [bindOk]
      rw [read_binary_u16_le_rt _ _ h4]
      simp only [bindOk]
      rw [read_binary_u16_le_rt _ _ h5]
      simp only [bindOk]
      rw [read_binary_u16_le_rt _ _ h6]
      simp only [bindOk]
      rw [read_binary_u16_le_rt _ _ h7]
      simp only [bindOk]
      rw [read_binary_u16_le_rt _ _ hrdev16]
      simp only [bindOk]
      rw [read_binary_u32_le_rt _ _ h10]
      simp only [bindOk]
      rw [read_binary_u16_le_rt _ _ h11]
      simp only [bindOk]
      rw [read_binary_u32_le_rt_nil _ h12]
      simp only [bindOk]
      rw [dev16_unpack_major _ _ h1 h2, dev16_unpack_minor _ _ h2,
        dev16_unpack_major _ _ h8 h9, dev16_unpack_minor _ _ h9, hdev, hrdev, ← hc]
    rw [hread]
    rfl
  | BigEndian =>
    refine ⟨_, write_bin_eq m .BigEndian
      ⟨h1, h2, h3, h4, h5, h6, h7, h8, h9, h10, h11, h12⟩, ?_⟩
    simp only [List.append_assoc]
    rw [read_some_bin_be]
    have hread : Metadata.read_bin .BigEndian
        (write_binary_u16_be ((major m.dev <<< 8) ||| minor m.dev) ++
          (write_binary_u16_be m.ino ++ (write_binary_u16_be m.mode ++
          (write_binary_u16_be m.uid ++ (write_binary_u16_be m.gid ++
          (write_binary_u16_be m.nlink ++
          (write_binary_u16_be ((major m.rdev <<< 8) ||| minor m.rdev) ++
          (write_binary_u32_be m.mtime ++ (write_binary_u16_be m.name_len ++
          write_binary_u32_be m.file_size))))))))) = .ok (m, []) := by
      simp only [Metadata.read_bin]
      rw [read_binary_u16_be_rt _ _ hdev16]
      simp only [bindOk]
      rw [read_binary_u16_be_rt _ _ h3]
      simp only [bindOk]
      rw [read_binary_u16_be_rt _ _ h4]
      simp only [bindOk]
      rw [read_binary_u16_be_rt _ _ h5]
      simp only [bindOk]
      rw [read_binary_u16_be_rt _ _ h6]
      simp only [bindOk]
      rw [read_binary_u16_be_rt _ _ h7]
      simp only [bindOk]
      rw [read_binary_u16_be_rt _ _ hrdev16]
      simp only [bindOk]
      rw [read_binary_u32_be_rt _ _ h10]
      simp only [bindOk]
      rw [read_binary_u16_be_rt _ _ h11]
      simp only [bindOk]
      rw [read_binary_u32_be_rt_nil _ h12]
      simp only [bindOk]
      rw [dev16_unpack_major _ _ h1 h2, dev16_unpack_minor _ _ h2,
        dev16_unpack_major _ _ h8 h9, dev16_unpack_minor _ _ h9, hdev, hrdev, ← hc]
    rw [hread]
    rfl

theorem write_odc_error (m : Metadata) (hne : ¬ odcEncodable m) :
    m.write_odc = .error .invalidData := by
  unfold odcEncodable at hne
  simp only [MAX_6, MAX_11] at hne
  unfold Metadata.write_odc tryInto write_octal_6 write_octal_11
  simp only [MAX_6, MAX_11, U32_BOUND, U64_BOUND]
  by_cases g1 : m.dev ≤ 262143
  · rw [if_pos (show m.dev < 2 ^ 32 by omega)]
    simp only [bindOk]
    rw [if_neg (show ¬ m.dev > 262143 by omega)]
    simp only [bindOk]
    by_cases g2 : m.ino ≤ 262143
    · rw [if_pos (show m.ino < 2 ^ 32 by omega)]
      simp only [bindOk]
      rw [if_neg (show ¬ m.ino > 262143 by omega)]
      simp only [bindOk]
      by_cases g3 : m.mode ≤ 262143
      · rw [if_neg (show ¬ m.mode > 262143 by omega)]
        simp only [bindOk]
        by_cases g4 : m.uid ≤ 262143
        · rw [if_neg (show ¬ m.uid > 262143 by omega)]
          simp only [bindOk]
          by_cases g5 : m.gid ≤ 262143
          · rw [if_neg (show ¬ m.gid > 262143 by omega)]
            simp only [bindOk]
            by_cases g6 : m.nlink ≤ 262143
            · rw [if_neg (show ¬ m.nlink > 262143 by omega)]
              simp only [bindOk]
              by_cases g7 : m.rdev ≤ 262143
              · rw [if_pos (show m.rdev < 2 ^ 32 by omega)]
                simp only [bindOk]
                rw [if_neg (show ¬ m.rdev > 262143 by omega)]
                simp only [bindOk]
                have hzc := zero_on_overflow_le m.mtime MAX_11
                simp only [MAX_11] at hzc
                rw [if_neg (show ¬ zero_on_overflow m.mtime 8589934591 > 8589934591
                  by omega)]
                simp only [bindOk]
                by_cases g8 : m.name_len ≤ 262143
                · rw [if_neg (show ¬ m.name_len > 262143 by omega)]
                  simp only [bindOk]
                  by_cases g9 : m.file_size ≤ 8589934591
                  · exact absurd ⟨g1, g2, g3, g4, g5, g6, g7, g8, g9⟩ hne
                  · rw [if_pos (show m.file_size > 8589934591 by omega)]
                    rfl
                · rw [if_pos (show m.name_len > 262143 by omega)]
                  rfl
              · by_cases c : m.rdev < 2 ^ 32
                · rw [if_pos c]
                  simp only [bindOk]
                  rw [if_pos (show m.rdev > 262143 by omega)]
                  rfl
                · rw [if_neg c]
                  rfl
            · rw [if_pos (show m.nlink > 262143 by omega)]
              rfl
          · rw [if_pos (show m.gid > 262143 by omega)]
            rfl
        · rw [if_pos (show m.uid > 262143 by omega)]
          rfl
      · rw [if_pos (show m.mode > 262143 by omega)]
        rfl
    · by_cases c : m.ino < 2 ^ 32
      · rw [if_pos c]
        simp only [bindOk]
        rw [if_pos (show m.ino > 262143 by omega)]
        rfl
      · rw [if_neg c]
        rfl
  · by_cases c : m.dev < 2 ^ 32
    · rw [if_pos c]
      simp only [bindOk]
      rw [if_pos (show m.dev > 262143 by omega)]
      rfl
    · rw [if_neg c]
      rfl

theorem write_newc_error (m : Metadata) (magic : List Nat) (hne : ¬ newcEncodable m) :
    m.write_newc magic = .error .invalidData := by
  unfold newcEncodable at hne
  unfold Metadata.write_newc tryInto
  by_cases c1 : m.ino < U32_BOUND
  · rw [if_pos c1]
    simp only [bindOk]
    by_cases c2 : m.file_size < U32_BOUND
    · exact absurd ⟨c1, c2⟩ hne
    · rw [if_neg c2]
      simp only [bindError]
  · rw [if_neg c1]
    simp only [bindError]

theorem write_bin_error (m : Metadata) (byteOrder : ByteOrder) (hne : ¬ binEncodable m) :
    m.write_bin byteOrder = .error .invalidData := by
  unfold binEncodable at hne
  simp only [U16_BOUND, U32_BOUND] at hne
  unfold Metadata.write_bin dev64_to_dev16 tryInto
  cases byteOrder
  all_goals
    simp only [U16_BOUND, U32_BOUND]
    by_cases g1 : major m.dev < 256
    case neg => rw [if_neg g1]; rfl
    rw [if_pos g1]
    simp only [bindOk]
    by_cases g2 : minor m.dev < 256
    case neg => rw [if_neg g2]; rfl
    rw [if_pos g2]
    simp only [bindOk]
    by_cases g3 : m.ino < 2 ^ 16
    case neg => rw [if_neg g3]; rfl
    rw [if_pos g3]
    simp only [bindOk]
    by_cases g4 : m.mode < 2 ^ 16
    case neg => rw [if_neg g4]; rfl
    rw [if_pos g4]
    simp only [bindOk]
    by_cases g5 : m.uid < 2 ^ 16
    case neg => rw [if_neg g5]; rfl
    rw [if_pos g5]
    simp only [bindOk]
    by_cases g6 : m.gid < 2 ^ 16
    case neg => rw [if_neg g6]; rfl
    rw [if_pos g6]
    simp only [bindOk]
    by_cases g7 : m.nlink < 2 ^ 16
    case neg => rw [if_neg g7]; rfl
    rw [if_pos g7]
    simp only [bindOk]
    by_cases g8 : major m.rdev < 256
    case neg => rw [if_neg g8]; rfl
    rw [if_pos g8]
    simp only [bindOk]
    by_cases g9 : minor m.rdev < 256
    case neg => rw [if_neg g9]; rfl
    rw [if_pos g9]
    simp only [bindOk]
    by_cases g10 : m.mtime < 2 ^ 32
    case neg => rw [if_neg g10]; rfl
    rw [if_pos g10]
    simp only [bindOk]
    by_cases g11 : m.name_len < 2 ^ 16
    case neg => rw [if_neg g11]; rfl
    rw [if_pos g11]
    simp only [bindOk]
    by_cases g12 : m.file_size < 2 ^ 32
    case neg => rw [if_neg g12]; rfl
    exact absurd ⟨g1, g2, g3, g4, g5, g6, g7, g8, g9, g10, g11, g12⟩ hne

theorem write_odc_mtime_clamp (m : Metadata) (hgt : MAX_11 < m.mtime) :
    m.write_odc = Metadata.write_odc { m with mtime := 0 } := by
  have hz : zero_on_overflow m.mtime MAX_11 = 0 := by
    unfold zero_on_overflow
    rw [if_pos hgt]
  have hz0 : zero_on_overflow (0 : Nat) MAX_11 = 0 := by
    unfold zero_on_overflow
    rw [if_neg (by simp [MAX_11])]
  unfold Metadata.write_odc
  simp only [hz, hz0]

theorem write_newc_mtime_clamp (m : Metadata) (magic : List Nat) (hgt : MAX_8 < m.mtime) :
    m.write_newc magic = Metadata.write_newc { m with mtime := 0 } magic := by
  have hz : zero_on_overflow m.mtime MAX_8 = 0 := by
    unfold zero_on_overflow
    rw [if_pos hgt]
  have hz0 : zero_on_overflow (0 : Nat) MAX_8 = 0 := by
    unfold zero_on_overflow
    rw [if_neg (by simp [MAX_8])]
  unfold Metadata.write_newc
  simp only [hz, hz0]

theorem crcFold_mod (s : List Nat) : ∀ init,
    crcFold s init % U32_BOUND = (init + s.sum) % U32_BOUND := by
  induction s with
  | nil => intro init; simp [crcFold]
  | cons b t ih =>
    intro init
    simp only [crcFold, List.foldl_cons] at ih ⊢
    rw [ih ((init + b) % U64_BOUND)]
    have hdvd : U32_BOUND ∣ U64_BOUND := by
      simp only [U32_BOUND, U64_BOUND]
      exact pow_dvd_pow 2 (by omega)
    rw [Nat.add_mod ((init + b) % U64_BOUND) t.sum, Nat.mod_mod_of_dvd _ hdvd,
      ← Nat.add_mod, List.sum_cons]
    ring_nf

/-- The 32-bit checksum is the byte sum modulo two to the thirty-second. -/
theorem crcSum_eq_mod (s : List Nat) : crcSum s = s.sum % U32_BOUND := by
  unfold crcSum
  rw [show U32_BOUND - 1 = 2 ^ 32 - 1 from rfl, Nat.and_pow_two_sub_one_eq_mod]
  have := crcFold_mod s 0
  simpa [U32_BOUND] using this

theorem digitOfByte_lt {base b d : Nat} (h : digitOfByte base b = some d) : d < base := by
  unfold digitOfByte at h
  by_cases c1 : 48 ≤ b ∧ b ≤ 57 <;> by_cases c2 : 97 ≤ b ∧ b ≤ 122 <;>
    by_cases c3 : 65 ≤ b ∧ b ≤ 90 <;>
    simp [c1, c2, c3, Option.ite_none_right_eq_some] at h <;> omega

theorem parseDigits_none_of_bad (base limit : Nat) : ∀ (l : List Nat) (acc : Nat),
    digitsOnly base l = false → parseDigits base limit l acc = none := by
  intro l
  induction l with
  | nil => intro acc h; simp [digitsOnly] at h
  | cons b t ih =>
    intro acc h
    simp only [digitsOnly, List.all_cons, Bool.and_eq_false_iff] at h
    unfold parseDigits
    cases hd : digitOfByte base b with
    | none => simp
    | some d =>
      simp only
      split
      · apply ih
        rcases h with h | h
        · rw [hd] at h
          simp at h
        · simpa [digitsOnly] using h
      · rfl

theorem parseDigits_some_of_good (base limit : Nat) (hb2 : 2 ≤ base) :
    ∀ (l : List Nat) (acc : Nat), digitsOnly base l = true →
      (acc + 1) * base ^ l.length ≤ limit + 1 →
      ∃ v, parseDigits base limit l acc = some v := by
  intro l
  induction l with
  | nil => intro acc _ _; exact ⟨acc, rfl⟩
  | cons b t ih =>
    intro acc hdig hbound
    simp only [digitsOnly, List.all_cons, Bool.and_eq_true] at hdig
    obtain ⟨hb, ht⟩ := hdig
    cases hd : digitOfByte base b with
    | none => rw [hd] at hb; simp at hb
    | some d =>
      have hdlt : d < base := digitOfByte_lt hd
      have hstep : acc * base + d + 1 ≤ (acc + 1) * base := by
        have e1 : (acc + 1) * base = acc * base + base := by ring
        rw [e1]
        omega
      have hrec : (acc * base + d + 1) * base ^ t.length ≤ limit + 1 := by
        calc (acc * base + d + 1) * base ^ t.length
            ≤ (acc + 1) * base * base ^ t.length :=
              Nat.mul_le_mul_right _ hstep
          _ = (acc + 1) * base ^ (t.length + 1) := by rw [pow_succ]; ring
          _ ≤ limit + 1 := by simpa using hbound
      have hacc : acc * base + d ≤ limit := by
        have hp : 1 ≤ base ^ t.length := Nat.one_le_pow _ _ (by omega)
        have := Nat.le_mul_of_pos_right (acc * base + d + 1) (show 0 < base ^ t.length by omega)
        omega
      unfold parseDigits
      rw [hd]
      simp only [if_pos hacc]
      exact ih (acc * base + d) (by simpa [digitsOnly] using ht) hrec

theorem fromStrRadix_isSome_iff (base limit : Nat) (hb2 : 2 ≤ base) (s : List Nat)
    (hbound : base ^ s.length ≤ limit + 1) :
    (∃ v, fromStrRadix base limit s = some v) ↔ acceptedNumeral base s = true := by
  cases s with
  | nil => simp [fromStrRadix, acceptedNumeral]
  | cons b rest =>
    unfold fromStrRadix acceptedNumeral
    by_cases hplus : b = 43
    · simp only [if_pos hplus]
      cases rest with
      | nil => simp
      | cons c t =>
        simp only [List.isEmpty_cons, Bool.not_false, Bool.true_and]
        constructor
        · intro ⟨v, hv⟩
          by_contra hbad
          rw [parseDigits_none_of_bad base limit _ 0 (by
            cases hgood : digitsOnly base (c :: t) with
            | true => exact absurd hgood hbad
            | false => rfl)] at hv
          exact absurd hv (by simp)
        · intro hgood
          apply parseDigits_some_of_good base limit hb2 _ 0 hgood
          have hle : base ^ (c :: t).length ≤ base ^ (b :: c :: t).length :=
            Nat.pow_le_pow_right (by omega) (by simp)
          simpa using le_trans hle hbound
    · simp only [if_neg hplus]
      constructor
      · intro ⟨v, hv⟩
        by_contra hbad
        rw [parseDigits_none_of_bad base limit _ 0 (by
          cases hgood : digitsOnly base (b :: rest) with
          | true => exact absurd hgood hbad
          | false => rfl)] at hv
        exact absurd hv (by simp)
      · intro hgood
        apply parseDigits_some_of_good base limit hb2 _ 0 hgood
        simpa using hbound

theorem readExact_full (n : Nat) (s : List Nat) (h : s.length = n) :
    readExact n s = .ok (s, []) := by
  unfold readExact
  rw [if_pos (by omega), ← h, List.take_length, List.drop_length]

theorem read_octal_6_error_iff (s : List Nat) (hlen : s.length = 6) :
    (read_octal_6 s = .error .invalidData) ↔ acceptedNumeral 8 s = false := by
  unfold read_octal_6
  rw [readExact_full 6 s hlen]
  simp only [bindOk]
  have hiff := fromStrRadix_isSome_iff 8 (U32_BOUND - 1) (by omega) s
    (by rw [hlen]; norm_num [U32_BOUND])
  cases hfs : fromStrRadix 8 (U32_BOUND - 1) s with
  | none =>
    simp only [hfs]
    constructor
    · intro _
      cases hacc : acceptedNumeral 8 s with
      | false => rfl
      | true =>
        obtain ⟨v, hv⟩ := hiff.2 hacc
        rw [hfs] at hv
        exact absurd hv (by simp)
    · intro _
      trivial
  | some v =>
    simp only [hfs]
    constructor
    · intro hcontra
      exact absurd hcontra (by simp)
    · intro hacc
      have := hiff.1 ⟨v, hfs⟩
      rw [this] at hacc
      exact absurd hacc (by simp)

theorem read_octal_11_error_iff (s : List Nat) (hlen : s.length = 11) :
    (read_octal_11 s = .error .invalidData) ↔ acceptedNumeral 8 s = false := by
  unfold read_octal_11
  rw [readExact_full 11 s hlen]
  simp only [bindOk]
  have hiff := fromStrRadix_isSome_iff 8 (U64_BOUND - 1) (by omega) s
    (by rw [hlen]; norm_num [U64_BOUND])
  cases hfs : fromStrRadix 8 (U64_BOUND - 1) s with
  | none =>
    simp only [hfs]
    constructor
    · intro _
      cases hacc : acceptedNumeral 8 s with
      | false => rfl
      | true =>
        obtain ⟨v, hv⟩ := hiff.2 hacc
        rw [hfs] at hv
        exact absurd hv (by simp)
    · intro _
      trivial
  | some v =>
    simp only [hfs]
    constructor
    · intro hcontra
      exact absurd hcontra (by simp)
    · intro hacc
      have := hiff.1 ⟨v, hfs⟩
      rw [this] at hacc
      exact absurd hacc (by simp)

theorem read_hex_8_error_iff (s : List Nat) (hlen : s.length = 8) :
    (read_hex_8 s = .error .invalidData) ↔ acceptedNumeral 16 s = false := by
  unfold read_hex_8
  rw [readExact_full 8 s hlen]
  simp only [bindOk]
  have hiff := fromStrRadix_isSome_iff 16 (U32_BOUND - 1) (by omega) s
    (by rw [hlen]; norm_num [U32_BOUND])
  cases hfs : fromStrRadix 16 (U32_BOUND - 1) s with
  | none =>
    simp only [hfs]
    constructor
    · intro _
      cases hacc : acceptedNumeral 16 s with
      | false => rfl
      | true =>
        obtain ⟨v, hv⟩ := hiff.2 hacc
        rw [hfs] at hv
        exact absurd hv (by simp)
    · intro _
      trivial
  | some v =>
    simp only [hfs]
    constructor
    · intro hcontra
      exact absurd hcontra (by simp)
    · intro hacc
      have := hiff.1 ⟨v, hfs⟩
      rw [this] at hacc
      exact absurd hacc (by simp)

/-- C8 counterexample: the six-byte input `+00001` contains a byte (the
plus sign, 43) that is not an octal digit, yet `read_octal_6` succeeds and
returns 1, because `from_str_radix` accepts an optional leading sign. -/
theorem claim_C8_counterexample :
    read_octal_6 [43, 48, 48, 48, 48, 49] = .ok (1, []) ∧ digitOfByte 8 43 = none := by
  constructor <;> rfl

/-- C8 (amended): for an input of the field's exact width, each
fixed-width reader fails with invalid-data exactly when the input is not
of the accepted shape — all bytes digits of the base, or a leading plus
sign (which `from_str_radix` strips) followed by digits of the base.  In
particular any non-digit byte other than a leading plus causes an
invalid-data error, and an in-width digit string never overflows. -/
theorem claim_C8_non_digit_rejection :
    (∀ s : List Nat, s.length = 6 →
      ((read_octal_6 s = .error .invalidData) ↔ acceptedNumeral 8 s = false)) ∧
    (∀ s : List Nat, s.length = 11 →
      ((read_octal_11 s = .error .invalidData) ↔ acceptedNumeral 8 s = false)) ∧
    (∀ s : List Nat, s.length = 8 →
      ((read_hex_8 s = .error .invalidData) ↔ acceptedNumeral 16 s = false)) :=
  ⟨read_octal_6_error_iff, read_octal_11_error_iff, read_hex_8_error_iff⟩

/-- C8 witness: the theorem applied to a concrete six-byte input with a
non-digit, non-sign byte, showing the reader rejects it. -/
theorem claim_C8_witness :
    (read_octal_6 [47, 48, 48, 48, 48, 49] = .error .invalidData) ↔
      acceptedNumeral 8 [47, 48, 48, 48, 48, 49] = false :=
  claim_C8_non_digit_rejection.1 [47, 48, 48, 48, 48, 49] rfl

/-- C4 counterexample: a one-byte stream is a partial first magic read and
a three-byte stream with a non-bin first half is a partial second magic
read; in both cases `read_some` returns none (end of stream) rather than
the fatal decode error the claim requires. -/
theorem claim_C4_counterexample :
    Metadata.read_some [48] = .ok none ∧ Metadata.read_some [48, 55, 48] = .ok none :=
  ⟨rfl, rfl⟩

/-- C4 (amended): a read of zero bytes at the first magic attempt yields
end-of-stream, but so does every partial magic read — one byte at the
two-byte read, or fewer than four remaining bytes at the following
four-byte read; `read_some` conflates them with clean end of stream and
returns none.  Only a complete six-byte magic matching no known format is
a fatal decode error. -/
theorem claim_C4_short_magic_reads :
    (∀ s : List Nat, s.length < 2 → Metadata.read_some s = .ok none) ∧
    (∀ (b0 b1 : Nat) (s1 : List Nat), [b0, b1] ≠ BIN_LE_MAGIC → [b0, b1] ≠ BIN_BE_MAGIC →
      s1.length < 4 → Metadata.read_some (b0 :: b1 :: s1) = .ok none) ∧
    (∀ (b0 b1 b2 b3 b4 b5 : Nat) (s2 : List Nat), [b0, b1] ≠ BIN_LE_MAGIC →
      [b0, b1] ≠ BIN_BE_MAGIC → [b0, b1, b2, b3, b4, b5] ≠ ODC_MAGIC →
      [b0, b1, b2, b3, b4, b5] ≠ NEWC_MAGIC → [b0, b1, b2, b3, b4, b5] ≠ CRC_MAGIC →
      Metadata.read_some (b0 :: b1 :: b2 :: b3 :: b4 :: b5 :: s2) = .error .otherErr) := by
  refine ⟨?_, ?_, ?_⟩
  · intro s h
    match s with
    | [] => rfl
    | [_] => rfl
    | _ :: _ :: _ => simp at h; omega
  · intro b0 b1 s1 h1 h2 h3
    simp only [Metadata.read_some]
    rw [if_neg h1, if_neg h2]
    match s1 with
    | [] => rfl
    | [_] => rfl
    | [_, _] => rfl
    | [_, _, _] => rfl
    | _ :: _ :: _ :: _ :: _ => simp at h3; omega
  · intro b0 b1 b2 b3 b4 b5 s2 h1 h2 h3 h4 h5
    simp only [Metadata.read_some]
    rw [if_neg h1, if_neg h2, if_neg h3, if_neg h4, if_neg h5]

/-- C4 witness: the amended theorem applied at the concrete one-byte
stream. -/
theorem claim_C4_witness : Metadata.read_some [55] = .ok none :=
  claim_C4_short_magic_reads.1 [55] (by decide)

set_option maxRecDepth 4000 in
/-- C9 counterexample: a stream holding an odc trailer followed by a
complete odc entry.  The first `read_entry` returns none (the trailer),
but the next call returns the following entry: iteration does not stop
permanently. -/
theorem claim_C9_counterexample :
    read_entry ⟨c9OdcTrailer ++ c9OdcEntry, [], false⟩ =
      .ok (none, ⟨c9OdcEntry, [], false⟩) ∧
    read_entry ⟨c9OdcEntry, [], false⟩ =
      .ok (some ⟨c9EntryMeta, [97], [], Format.Odc⟩, ⟨[], [], false⟩) := by
  constructor <;> rfl

/-- C9 (amended): decoding a trailer makes `read_entry` return none with
the stream positioned right after the trailer's name, and the reader
keeps no end-of-archive flag: a subsequent call simply reads whatever
follows, so iteration stops permanently only if the caller stops calling.
The trailer bytes are exactly what the builder's `write_trailer` emits
for odc. -/
theorem claim_C9_trailer_no_permanent_stop (rest : List Nat)
    (cache : List ((Nat × Nat) × List Nat)) (v : Bool) :
    write_trailer Format.Odc = .ok c9OdcTrailer ∧
    read_entry ⟨c9OdcTrailer ++ rest, cache, v⟩ = .ok (none, ⟨rest, cache, v⟩) := by
  constructor
  · decide
  · have h1 : Metadata.read_some (c9OdcTrailer ++ rest) =
        .ok (some ((c9TrailerMeta, Format.Odc), TRAILER ++ 0 :: rest)) := by
      simp only [c9OdcTrailer, List.append_assoc]
      rw [read_some_odc]
      unfold Metadata.read_odc
      rw [read_octal_6_rt 0 _ (by decide)]
      simp only [bindOk]
      rw [read_octal_6_rt 0 _ (by decide)]
      simp only [bindOk]
      rw [read_octal_6_rt 0 _ (by decide)]
      simp only [bindOk]
      rw [read_octal_6_rt 0 _ (by decide)]
      simp only [bindOk]
      rw [read_octal_6_rt 0 _ (by decide)]
      simp only [bindOk]
      rw [read_octal_6_rt 0 _ (by decide)]
      simp only [bindOk]
      rw [read_octal_6_rt 0 _ (by decide)]
      simp only [bindOk]
      rw [read_octal_11_rt 0 _ (by decide)]
      simp only [bindOk]
      rw [read_octal_6_rt 11 _ (by decide)]
      simp only [bindOk]
      rw [read_octal_11_rt 0 _ (by decide)]
      simp only [bindOk]
      rfl
    have h2 : read_path_buf 11 Format.Odc (TRAILER ++ 0 :: rest) =
        .ok (TRAILER, rest) := by
      unfold read_path_buf readExact
      rw [show TRAILER ++ 0 :: rest = (TRAILER ++ [0]) ++ rest by simp]
      have hl : (TRAILER ++ [0]).length = 11 := by decide
      rw [if_pos (by simp only [List.length_append, hl]; omega)]
      rw [List.take_left' hl, List.drop_left' hl]
      simp only [bindOk]
      rw [if_pos (by decide)]
      have hd : (TRAILER ++ [0]).dropLast = TRAILER := by decide
      simp only [read_path_padding, bindOk, hd]
    simp only [read_entry, h1, c9TrailerMeta, h2]
    simp

/-- C3 counterexample: under the bin variant, a metadata whose only
over-width field is `mtime` fails to encode with invalid-data — the
claimed silent clamp to a zero mtime field does not happen for bin. -/
theorem claim_C3_counterexample :
    (major c3Meta.dev < 256 ∧ minor c3Meta.dev < 256 ∧ c3Meta.ino < U16_BOUND ∧
      c3Meta.mode < U16_BOUND ∧ c3Meta.uid < U16_BOUND ∧ c3Meta.gid < U16_BOUND ∧
      c3Meta.nlink < U16_BOUND ∧ major c3Meta.rdev < 256 ∧ minor c3Meta.rdev < 256 ∧
      c3Meta.name_len < U16_BOUND ∧ c3Meta.file_size < U32_BOUND ∧
      U32_BOUND ≤ c3Meta.mtime) ∧
    c3Meta.write (Format.Bin ByteOrder.LittleEndian) = .error .invalidData := by
  constructor
  · decide
  · rfl

/-- C3 (amended): odc and newc/crc silently clamp an over-width `mtime` to
zero and reject any other over-width field with an invalid-data error,
but bin has no mtime clamp: it rejects every over-width field, `mtime`
included, with invalid-data (`binEncodable` contains the bound
`mtime < U32_BOUND`). -/
theorem claim_C3_mtime_overflow_policy (m : Metadata) :
    (odcEncodable m → ∃ bs, m.write Format.Odc = .ok bs) ∧
    (¬ odcEncodable m → m.write Format.Odc = .error .invalidData) ∧
    (MAX_11 < m.mtime →
      m.write Format.Odc = Metadata.write { m with mtime := 0 } Format.Odc) ∧
    (newcEncodable m →
      (∃ bs, m.write Format.Newc = .ok bs) ∧ (∃ bs, m.write Format.Crc = .ok bs)) ∧
    (¬ newcEncodable m →
      m.write Format.Newc = .error .invalidData ∧ m.write Format.Crc = .error .invalidData) ∧
    (MAX_8 < m.mtime →
      m.write Format.Newc = Metadata.write { m with mtime := 0 } Format.Newc ∧
      m.write Format.Crc = Metadata.write { m with mtime := 0 } Format.Crc) ∧
    (∀ byteOrder, binEncodable m → ∃ bs, m.write (Format.Bin byteOrder) = .ok bs) ∧
    (∀ byteOrder, ¬ binEncodable m →
      m.write (Format.Bin byteOrder) = .error .invalidData) := by
  refine ⟨?_, ?_, ?_, ?_, ?_, ?_, ?_, ?_⟩
  · intro h
    exact ⟨_, write_odc_eq m h⟩
  · intro h
    exact write_odc_error m h
  · intro h
    exact write_odc_mtime_clamp m h
  · intro h
    exact ⟨⟨_, write_newc_eq m NEWC_MAGIC h⟩, ⟨_, write_newc_eq m CRC_MAGIC h⟩⟩
  · intro h
    exact ⟨write_newc_error m NEWC_MAGIC h, write_newc_error m CRC_MAGIC h⟩
  · intro h
    exact ⟨write_newc_mtime_clamp m NEWC_MAGIC h, write_newc_mtime_clamp m CRC_MAGIC h⟩
  · intro byteOrder h
    cases byteOrder with
    | LittleEndian => exact ⟨_, write_bin_eq m .LittleEndian h⟩
    | BigEndian => exact ⟨_, write_bin_eq m .BigEndian h⟩
  · intro byteOrder h
    exact write_bin_error m byteOrder h

/-- C3 witness: the amended theorem applied at a concrete odc metadata
whose mtime is over-width — encoding succeeds and equals the encoding of
the same metadata with mtime zero. -/
theorem claim_C3_witness :
    MAX_11 < c3OdcMeta.mtime ∧
    c3OdcMeta.write Format.Odc = Metadata.write { c3OdcMeta with mtime := 0 } Format.Odc :=
  ⟨by decide, (claim_C3_mtime_overflow_policy c3OdcMeta).2.2.1 (by decide)⟩

/-- C5: header round trip per variant.  For every metadata in the
variant's round-trip range, decoding the encoder's output returns exactly
the metadata and the format detected from the magic is the encoding
format, with the whole byte string consumed. -/
theorem claim_C5_header_round_trip (f : Format) (m : Metadata) (h : roundTripRange f m) :
    ∃ bytes, m.write f = .ok bytes ∧
      Metadata.read_some bytes = .ok (some ((m, f), [])) := by
  cases f with
  | Odc =>
    simp only [roundTripRange] at h
    obtain ⟨h1, h2, h3⟩ := h
    exact odc_round_trip m h1 h2 h3
  | Newc =>
    simp only [roundTripRange] at h
    obtain ⟨hino, hmode, huid, hgid, hnlink, hmt, hfs, hnl, hchk, hdev, hrdev⟩ := h
    exact newc_round_trip m NEWC_MAGIC .Newc hino hmode huid hgid hnlink hmt hfs hnl hchk
      hdev hrdev read_some_newc
  | Crc =>
    simp only [roundTripRange] at h
    obtain ⟨hino, hmode, huid, hgid, hnlink, hmt, hfs, hnl, hchk, hdev, hrdev⟩ := h
    exact newc_round_trip m CRC_MAGIC .Crc hino hmode huid hgid hnlink hmt hfs hnl hchk
      hdev hrdev read_some_crc
  | Bin byteOrder =>
    simp only [roundTripRange] at h
    obtain ⟨hb, hdev, hrdev, hc⟩ := h
    exact bin_round_trip m byteOrder hb hdev hrdev hc

/-- C5 witness: the round trip at a concrete newc metadata. -/
theorem claim_C5_witness :
    roundTripRange Format.Newc c5Meta ∧
    ∃ bytes, c5Meta.write Format.Newc = .ok bytes ∧
      Metadata.read_some bytes = .ok (some ((c5Meta, Format.Newc), [])) :=
  ⟨by decide, claim_C5_header_round_trip Format.Newc c5Meta (by decide)⟩

/-! Claims C7, C10 and C6: the builder. -/

/-- C7: in `Builder::append_entry`, a repeated `(dev, ino)` pair (the
remapped id is already in the inode map) makes `remap_inode` return, for
newc/crc, a hard-link secondary with `file_size` forced to 0 and `check`
replaced by the value stored in the map entry; for odc/bin it only
replaces the inode and leaves `file_size` (and `check`) intact. -/
theorem claim_C7_hard_link_secondary (s : BuilderState) (m : Metadata) (ino0 chk0 : Nat)
    (h : alookup s.inodes (m.dev, m.ino) = some (ino0, chk0)) :
    ((s.format = .Newc ∨ s.format = .Crc) →
      remap_inode s m = ({ m with ino := ino0, file_size := 0, check := chk0 }, true, s)) ∧
    ((s.format = .Odc ∨ ∃ byteOrder, s.format = .Bin byteOrder) →
      remap_inode s m = ({ m with ino := ino0 }, false, s)) := by
  constructor
  · intro hf
    unfold remap_inode
    rw [h]
    rcases hf with hf | hf <;> rw [hf]
  · intro hf
    unfold remap_inode
    rw [h]
    rcases hf with hf | ⟨byteOrder, hf⟩ <;> rw [hf]

/-- C7 witness: a concrete repeated id under newc. -/
theorem claim_C7_witness :
    remap_inode c7State c7Meta =
      ({ c7Meta with ino := 0, file_size := 0, check := 99 }, true, c7State) :=
  (claim_C7_hard_link_secondary c7State c7Meta 0 99 (by decide)).1 (Or.inl rfl)

@[simp] theorem bind_ok_eq_map {ε α β : Type} (x : Except ε α) (f : α → β) :
    (x >>= fun a => (Except.ok (f a) : Except ε β)) = x.map f := by
  cases x <;> rfl

/-- C10: when the metadata's file size after hard-link fixing is zero,
`append_entry` writes the header and the padded name but no payload bytes
and no file padding, and raises no size-mismatch error no matter what the
data reader yields: the byte-count check runs only in the nonzero branch.
(The written header may still depend on `data` through the crc checksum
field.) -/
theorem claim_C10_zero_size_no_payload (s : BuilderState) (m : Metadata)
    (name data : List Nat) (m1 : Metadata) (isHL : Bool) (s1 : BuilderState)
    (hfix : fix_header s m name = .ok ((m1, isHL), s1)) (hzero : m1.file_size = 0) :
    append_entry s m name data =
      (let isCrc := s1.format == Format.Crc && m1.is_file && ! isHL
       let m2 := if isCrc then { m1 with check := crcSum data } else m1
       let s2 := if isCrc then
           { s1 with inodes := aupdateCheck s1.inodes (m1.dev, m1.ino) (crcSum data) }
         else s1
       (m2.write s2.format).map fun header => (m2, header ++ write_path name s2.format, s2)) := by
  unfold append_entry
  rw [hfix]
  simp only [bindOk]
  by_cases hc : (s1.format == Format.Crc && m1.is_file && ! isHL) = true
  · simp [hc, hzero, bind_ok_eq_map]
  · simp [hc, hzero, bind_ok_eq_map]

/-- C10 witness: a concrete zero-size append under odc with a data reader
that yields three bytes; the equation shows only header and name are
written. -/
theorem claim_C10_witness :
    c10Meta.file_size = 0 ∧
    append_entry c10State c10Meta [97] [9, 9, 9] =
      (let isCrc := Format.Odc == Format.Crc &&
        (Metadata.is_file { c10Meta with dev := 0, ino := 0, name_len := 2 }) && ! false
       let m2 := if isCrc then
           { c10Meta with dev := 0, ino := 0, name_len := 2, check := crcSum [9, 9, 9] }
         else { c10Meta with dev := 0, ino := 0, name_len := 2 }
       let s2state : BuilderState :=
         { maxInode := 1, maxDev := 1, format := Format.Odc,
           inodes := [((0, 2), (0, 0))], devices := [(1, 0)] }
       let s2 := if isCrc then
           { s2state with inodes := aupdateCheck s2state.inodes (0, 0) (crcSum [9, 9, 9]) }
         else s2state
       (m2.write s2.format).map fun header => (m2, header ++ write_path [97] s2.format, s2)) :=
  ⟨rfl, claim_C10_zero_size_no_payload c10State c10Meta [97] [9, 9, 9]
    { c10Meta with dev := 0, ino := 0, name_len := 2 } false
    { maxInode := 1, maxDev := 1, format := Format.Odc, inodes := [((0, 2), (0, 0))],
      devices := [(1, 0)] }
    (by decide) rfl⟩

/-- C6: crc soundness.  First, the builder under format crc, for a regular
file that is not a hard-link secondary, stores in the written header's
`check` field the byte sum of the streamed payload; second, the reader's
verification accepts exactly when the stored check equals the sum of the
bytes it read, failing with invalid-data otherwise; third, that sum is the
payload's byte sum modulo two to the thirty-second. -/
theorem claim_C6_crc_soundness :
    (∀ (s : BuilderState) (m : Metadata) (name data : List Nat) (m1 : Metadata)
        (s1 : BuilderState), fix_header s m name = .ok ((m1, false), s1) →
      s1.format = Format.Crc → m1.is_file = true →
      ∀ m2 out s2, append_entry s m name data = .ok (m2, out, s2) →
        m2.check = crcSum data) ∧
    (∀ bytes check, ((read_and_verify_crc bytes check = .ok bytes) ↔ crcSum bytes = check) ∧
      ((read_and_verify_crc bytes check = .error .invalidData) ↔ crcSum bytes ≠ check)) ∧
    (∀ bytes, crcSum bytes = bytes.sum % U32_BOUND) := by
  refine ⟨?_, ?_, ?_⟩
  · intro s m name data m1 s1 hfix hfmt hfile m2 out s2 happ
    unfold append_entry at happ
    rw [hfix] at happ
    simp only [bindOk] at happ
    have hc : (s1.format == Format.Crc && m1.is_file && ! false) = true := by
      rw [hfmt, hfile]
      rfl
    simp only [hc, if_true] at happ
    cases hw : Metadata.write { m1 with check := crcSum data }
        ({ s1 with inodes := aupdateCheck s1.inodes (m1.dev, m1.ino) (crcSum data) } :
          BuilderState).format with
    | error e =>
      rw [hw] at happ
      simp at happ
    | ok header =>
      rw [hw] at happ
      simp only [bindOk] at happ
      split at happ
      · split at happ
        · exact absurd happ (by simp)
        · simp only [Except.ok.injEq, Prod.mk.injEq] at happ
          rw [← happ.1]
      · simp only [Except.ok.injEq, Prod.mk.injEq] at happ
        rw [← happ.1]
  · intro bytes check
    unfold read_and_verify_crc
    by_cases h : crcSum bytes = check
    · simp [h]
    · simp [h]
  · intro bytes
    exact crcSum_eq_mod bytes

/-- C6 witness: a concrete crc append of the three-byte payload `xyz`
(byte sum 363); the written header's check field is that sum. -/
theorem claim_C6_witness :
    append_entry c6State c6Meta [97] [120, 121, 122] =
      .ok (c6OutMeta, c6OutBytes, c6State1) ∧
    c6OutMeta.check = crcSum [120, 121, 122] ∧ crcSum [120, 121, 122] = 363 :=
  ⟨by decide, claim_C6_crc_soundness.1 c6State c6Meta [97] [120, 121, 122] c6Fixed c6State1
    (by decide) rfl (by decide) c6OutMeta c6OutBytes c6State1 (by decide), by decide⟩

/-! Claims C1 and C2: the unpack loop. -/

theorem alookup_mem {α β : Type} [DecidableEq α] :
    ∀ (l : List (α × β)) (k : α) (v : β), alookup l k = some v → (k, v) ∈ l := by
  intro l
  induction l with
  | nil => intro k v h; simp [alookup] at h
  | cons kv rest ih =>
    intro k v h
    obtain ⟨k0, v0⟩ := kv
    unfold alookup at h
    split at h
    · simp only [Option.some.injEq] at h
      subst h
      simp_all
    · exact List.mem_cons_of_mem _ (ih k v h)

theorem unpackGo_touches_aux (dir : RPath) : ∀ (entries : List UEntry)
    (links : List (Nat × (RPath × Nat))) (acc : List Action),
    (∀ kv ∈ links, (kv.2.1).startsWith dir = true) →
    (∀ a ∈ acc, ∀ p ∈ a.touches, p.startsWith dir = true) →
    ∀ acts, unpackGo dir entries links acc = .ok acts →
      ∀ a ∈ acts, ∀ p ∈ a.touches, p.startsWith dir = true := by
  intro entries
  induction entries with
  | nil =>
    intro links acc hl ha acts h
    unfold unpackGo at h
    simp only [Except.ok.injEq] at h
    subst h
    exact ha
  | cons e rest ih =>
    intro links acc hl ha acts h
    unfold unpackGo at h
    by_cases hsw : (unpackTarget dir e).startsWith dir = true
    · rw [if_pos hsw] at h
      cases hlk : alookup links e.metadata.ino with
      | some pr =>
        obtain ⟨original, originalSize⟩ := pr
        rw [hlk] at h
        have horig : original.startsWith dir = true :=
          hl (e.metadata.ino, (original, originalSize)) (alookup_mem _ _ _ hlk)
        refine ih links _ hl ?_ acts h
        intro a ha2 p hp
        rcases List.mem_append.1 ha2 with ha3 | ha3
        · rcases List.mem_append.1 ha3 with ha4 | ha4
          · exact ha a ha4 p hp
          · simp only [List.mem_singleton] at ha4
            subst ha4
            simp only [Action.touches, List.mem_cons, List.mem_singleton] at hp
            rcases hp with hp | hp | hp
            · rw [hp]; exact horig
            · rw [hp]; exact hsw
            · simp at hp
        · split at ha3
          · simp only [List.mem_singleton] at ha3
            subst ha3
            simp only [Action.touches, List.mem_singleton] at hp
            rw [hp]
            exact hsw
          · simp at ha3
      | none =>
        rw [hlk] at h
        cases hft : e.metadata.file_type with
        | error err =>
          rw [hft] at h
          exact absurd h (by simp)
        | ok ftype =>
          rw [hft] at h
          refine ih _ _ ?_ ?_ acts h
          · intro kv hkv
            rcases List.mem_cons.1 hkv with hkv | hkv
            · rw [hkv]
              exact hsw
            · exact hl kv hkv
          · intro a ha2 p hp
            rcases List.mem_append.1 ha2 with ha3 | ha3
            · exact ha a ha3 p hp
            · simp only [List.mem_singleton] at ha3
              subst ha3
              simp only [Action.touches, List.mem_singleton] at hp
              rw [hp]
              exact hsw
    · rw [if_neg hsw] at h
      exact ih links acc hl ha acts h

/-- C2: path-escape safety of the unpack loop.  First, every filesystem
action a successful unpack performs touches only paths that start with
the normalized unpack root.  Second, an entry whose normalized target
path does not start with the root is skipped: the loop continues with the
remaining entries and identical state. -/
theorem claim_C2_path_escape_safety :
    (∀ (dir : RPath) (entries : List UEntry) (acts : List Action),
      unpack dir entries = .ok acts →
      ∀ a ∈ acts, ∀ p ∈ a.touches, p.startsWith dir.normalize = true) ∧
    (∀ (dir : RPath) (e : UEntry) (rest : List UEntry)
        (links : List (Nat × (RPath × Nat))) (acc : List Action),
      (unpackTarget dir e).startsWith dir = false →
      unpackGo dir (e :: rest) links acc = unpackGo dir rest links acc) := by
  constructor
  · intro dir entries acts h
    exact unpackGo_touches_aux dir.normalize entries [] [] (by simp) (by simp) acts h
  · intro dir e rest links acc hsw
    conv_lhs => unfold unpackGo
    rw [if_neg (by simp [hsw])]

/-- C2 witness: a concrete traversal entry (`../etc/passwd`) under root
`/t` is skipped by the loop. -/
theorem claim_C2_witness :
    unpackGo c2Dir [c2Escape] [] [] = unpackGo c2Dir [] [] [] :=
  claim_C2_path_escape_safety.2 c2Dir c2Escape [] [] [] (by decide)

/-- C9 witness: the amended theorem at an empty remaining stream. -/
theorem claim_C9_witness :
    write_trailer Format.Odc = .ok c9OdcTrailer ∧
    read_entry ⟨c9OdcTrailer ++ [], [], false⟩ = .ok (none, ⟨[], [], false⟩) :=
  claim_C9_trailer_no_permanent_stop [] [] false

/-- C1 counterexample: two entries that agree on `ino` but differ in
`dev` are nevertheless consolidated into one hard-link group by
`Archive::unpack` — the second is materialized via `hard_link` to the
first's path — because the replay map is keyed by the inode alone. -/
theorem claim_C1_counterexample :
    c1E1.metadata.dev ≠ c1E2.metadata.dev ∧ c1E1.metadata.ino = c1E2.metadata.ino ∧
    unpack c1Dir [c1E1, c1E2] =
      .ok [Action.create ⟨true, [.normal "t", .normal "a"]⟩ FileType.Regular,
           Action.hardLink ⟨true, [.normal "t", .normal "a"]⟩
             ⟨true, [.normal "t", .normal "b"]⟩] :=
  ⟨by decide, rfl, by decide⟩

/-- C1 (amended): the hard-link replay map of `Archive::unpack` is keyed
by `ino` alone, not by the pair `(dev, ino)`: of two entries that pass
the path check, the second is consolidated with the first (materialized
via `hard_link` to the first's path) exactly when the inode numbers are
equal, regardless of `dev`.  The hypothesis on file sizes excludes the
larger-secondary rewrite quirk, which does not affect grouping. -/
theorem claim_C1_hard_link_key (dir : RPath) (e1 e2 : UEntry) (t1 t2 : FileType)
    (h1 : (unpackTarget dir.normalize e1).startsWith dir.normalize = true)
    (h2 : (unpackTarget dir.normalize e2).startsWith dir.normalize = true)
    (ht1 : e1.metadata.file_type = .ok t1) (ht2 : e2.metadata.file_type = .ok t2)
    (hq : e2.metadata.file_size ≤ e1.metadata.file_size) :
    unpack dir [e1, e2] =
      .ok (if e2.metadata.ino = e1.metadata.ino then
          [Action.create (unpackTarget dir.normalize e1) t1,
           Action.hardLink (unpackTarget dir.normalize e1) (unpackTarget dir.normalize e2)]
        else
          [Action.create (unpackTarget dir.normalize e1) t1,
           Action.create (unpackTarget dir.normalize e2) t2]) := by
  unfold unpack
  unfold unpackGo
  rw [if_pos h1]
  simp only [alookup]
  rw [ht1]
  unfold unpackGo
  rw [if_pos h2]
  simp only [alookup]
  by_cases hino : e1.metadata.ino = e2.metadata.ino
  · rw [if_pos hino]
    have hqf : decide (e1.metadata.file_size < e2.metadata.file_size) = false := by
      simp only [decide_eq_false_iff_not, Nat.not_lt]
      exact hq
    rw [if_pos (show e2.metadata.ino = e1.metadata.ino from hino.symm)]
    simp only [hqf, Bool.and_false, Bool.false_eq_true, if_false]
    unfold unpackGo
    simp
  · rw [if_neg hino]
    rw [ht2]
    rw [if_neg (show ¬ e2.metadata.ino = e1.metadata.ino from fun hx => hino hx.symm)]
    unfold unpackGo
    simp

/-- C1 witness: the amended theorem applied to the concrete pair of
entries with equal inode and different device ids. -/
theorem claim_C1_witness :
    unpack c1Dir [c1E1, c1E2] =
      .ok (if c1E2.metadata.ino = c1E1.metadata.ino then
          [Action.create (unpackTarget c1Dir.normalize c1E1) FileType.Regular,
           Action.hardLink (unpackTarget c1Dir.normalize c1E1)
             (unpackTarget c1Dir.normalize c1E2)]
        else
          [Action.create (unpackTarget c1Dir.normalize c1E1) FileType.Regular,
           Action.create (unpackTarget c1Dir.normalize c1E2) FileType.Regular]) :=
  claim_C1_hard_link_key c1Dir c1E1 c1E2 FileType.Regular FileType.Regular
    (by decide) (by decide) (by decide) (by decide) (by decide)

end Kpea
